import Mathlib

/-!
Verification development for the subtitle/OSD compositor in sub/draw_bmp.c.

The C code is shallowly embedded: machine integers become Nat with explicit
reductions modulo 2^32 where a 32-bit store may wrap; C loops of the shape
for (i = start; i < start + n; i++) become the structural loop combinator
loopN; arrays become total functions from Nat, updated pointwise.
-/

set_option maxHeartbeats 1000000


/-- SLICE_W from draw_bmp.c (width of a dirty-tracking slice, 256). -/
def SLICE_W : Nat := 256

/-- TILE_H from draw_bmp.c. -/
def TILE_H : Nat := 4

/-- struct slice { uint16_t x0, x1; } -/
structure Slice where
  x0 : Nat
  x1 : Nat
deriving DecidableEq, Repr

/-- Slice maps are stored row-major: index y * s_w + x / SLICE_W. -/
def SliceMap : Type := Nat → Slice

/-- Pointwise update of a slice array (a C store slices[i] = s). -/
def updSlice (m : SliceMap) (i : Nat) (s : Slice) : SliceMap :=
  fun j => if j = i then s else m j

/-- The C loop for (i = start; i < start + n; i++) body, as a structural
recursion on the iteration count n. -/
def loopN {α : Type} (f : Nat → α → α) : Nat → Nat → α → α
  | _, 0, st => st
  | start, n+1, st => loopN f (start+1) n (f start st)

/-- MP_ALIGN_DOWN(x, a) from common.h; for the power-of-two alignments the
code uses, the bitmask form ((x) & ~((a) - 1)) equals x - x % a. -/
def alignDown (x a : Nat) : Nat := x - x % a

/-- MP_ALIGN_UP(x, a) from common.h: (((x) + (a) - 1) & ~((a) - 1)). -/
def alignUp (x a : Nat) : Nat := alignDown (x + (a - 1)) a

/-! ### The two rasterizer pixel kernels

draw_rgba and draw_ass_rgba operate pixel by pixel on packed 32-bit BGRA
values; both are embedded as functions on one packed source and one packed
destination pixel.  All C arithmetic here is on unsigned int (no intermediate
overflow for in-range channel values), and the final store is to uint32_t,
hence the reduction modulo 2^32. -/

/-- One pixel of draw_rgba from draw_bmp.c (lines 321-347): source-over of a
premultiplied BGRA source pixel onto a BGRA destination pixel.
Note the code divides by 255*255 while the destination attenuation factor is
(255*255 - srca); this is taken verbatim from the source. -/
def draw_rgba_pixel (srcpix dstpix : Nat) : Nat :=
  let srcb := srcpix &&& 0xFF
  let srcg := (srcpix >>> 8) &&& 0xFF
  let srcr := (srcpix >>> 16) &&& 0xFF
  let srca := (srcpix >>> 24) &&& 0xFF
  let dstb := dstpix &&& 0xFF
  let dstg := (dstpix >>> 8) &&& 0xFF
  let dstr := (dstpix >>> 16) &&& 0xFF
  let dsta := (dstpix >>> 24) &&& 0xFF
  let dstb := srcb + dstb * (255 * 255 - srca) / (255 * 255)
  let dstg := srcg + dstg * (255 * 255 - srca) / (255 * 255)
  let dstr := srcr + dstr * (255 * 255 - srca) / (255 * 255)
  let dsta := srca + dsta * (255 * 255 - srca) / (255 * 255)
  (dstb ||| (dstg <<< 8) ||| (dstr <<< 16) ||| (dsta <<< 24)) % 2 ^ 32

/-- One pixel of draw_ass_rgba from draw_bmp.c (lines 276-304): blend a mono
coverage byte v with flat color 0xRRGGBBAA onto a BGRA destination pixel. -/
def draw_ass_rgba_pixel (color v dstpix : Nat) : Nat :=
  let r := (color >>> 24) &&& 0xff
  let g := (color >>> 16) &&& 0xff
  let b := (color >>> 8) &&& 0xff
  let a := 0xff - (color &&& 0xff)
  let aa := a * v
  let dstb := dstpix &&& 0xFF
  let dstg := (dstpix >>> 8) &&& 0xFF
  let dstr := (dstpix >>> 16) &&& 0xFF
  let dsta := (dstpix >>> 24) &&& 0xFF
  let dstb := (v * b * a + dstb * (255 * 255 - aa)) / (255 * 255)
  let dstg := (v * g * a + dstg * (255 * 255 - aa)) / (255 * 255)
  let dstr := (v * r * a + dstr * (255 * 255 - aa)) / (255 * 255)
  let dsta := (aa * 255 + dsta * (255 * 255 - aa)) / (255 * 255)
  (dstb ||| (dstg <<< 8) ||| (dstr <<< 16) ||| (dsta <<< 24)) % 2 ^ 32

/-- The per-channel value claimed by the spec for the pre-scaled RGBA blit:
src + dst * (255 - A) / 255. -/
def rgba_spec_channel (src dst a : Nat) : Nat := src + dst * (255 - a) / 255


/-! ### Packed-pixel arithmetic -/

theorem lor_pack (x y k : Nat) (hx : x < 2 ^ k) : x ||| y <<< k = x + y * 2 ^ k := by
  rw [Nat.shiftLeft_eq, Nat.or_comm, Nat.mul_comm y (2 ^ k), ← Nat.mul_add_lt_is_or hx y]
  exact Nat.add_comm _ _

theorem pack32_eq (b g r a : Nat) (hb : b < 256) (hg : g < 256) (hr : r < 256)
    (ha : a < 256) :
    (b ||| g <<< 8 ||| r <<< 16 ||| a <<< 24) % 2 ^ 32 =
      b + g * 256 + r * 65536 + a * 16777216 := by
  have h1 : b ||| g <<< 8 = b + g * 2 ^ 8 := lor_pack _ _ _ (by omega)
  have h2 : b + g * 2 ^ 8 ||| r <<< 16 = b + g * 2 ^ 8 + r * 2 ^ 16 :=
    lor_pack _ _ _ (by norm_num; omega)
  have h3 : b + g * 2 ^ 8 + r * 2 ^ 16 ||| a <<< 24 =
      b + g * 2 ^ 8 + r * 2 ^ 16 + a * 2 ^ 24 :=
    lor_pack _ _ _ (by norm_num; omega)
  rw [h1, h2, h3]
  norm_num
  omega

/-- Each blended channel of draw_ass_rgba stays within one byte: the numerator
v*c*a + db*(255*255 - a*v) is at most 255 * (255*255). -/
theorem ass_channel_le {v c a db : Nat} (hv : v ≤ 255) (hc : c ≤ 255)
    (ha : a ≤ 255) (hdb : db ≤ 255) :
    (v * c * a + db * (255 * 255 - a * v)) / (255 * 255) ≤ 255 := by
  have haa : a * v ≤ 255 * 255 := Nat.mul_le_mul ha hv
  have e1 : v * c * a = a * v * c := by ring
  have h1 : a * v * c ≤ a * v * 255 := Nat.mul_le_mul_left _ hc
  have h2 : db * (255 * 255 - a * v) ≤ 255 * (255 * 255 - a * v) :=
    Nat.mul_le_mul_right _ hdb
  have hnum : v * c * a + db * (255 * 255 - a * v) ≤ 255 * (255 * 255) := by
    calc v * c * a + db * (255 * 255 - a * v)
        ≤ a * v * 255 + 255 * (255 * 255 - a * v) := by rw [e1]; exact Nat.add_le_add h1 h2
      _ = 255 * (255 * 255) := by omega
  calc (v * c * a + db * (255 * 255 - a * v)) / (255 * 255)
      ≤ 255 * (255 * 255) / (255 * 255) := Nat.div_le_div_right hnum
    _ = 255 := by norm_num

theorem ass_alpha_le {aa da : Nat} (haa : aa ≤ 255 * 255) (hda : da ≤ 255) :
    (aa * 255 + da * (255 * 255 - aa)) / (255 * 255) ≤ 255 := by
  have h2 : da * (255 * 255 - aa) ≤ 255 * (255 * 255 - aa) := Nat.mul_le_mul_right _ hda
  have hnum : aa * 255 + da * (255 * 255 - aa) ≤ 255 * (255 * 255) :=
    calc aa * 255 + da * (255 * 255 - aa)
        ≤ aa * 255 + 255 * (255 * 255 - aa) := Nat.add_le_add_left h2 _
      _ = 255 * (255 * 255) := by omega
  calc (aa * 255 + da * (255 * 255 - aa)) / (255 * 255)
      ≤ 255 * (255 * 255) / (255 * 255) := Nat.div_le_div_right hnum
    _ = 255 := by norm_num

theorem and_255_eq_mod (x : Nat) : x &&& 255 = x % 256 := by
  have h := Nat.and_pow_two_sub_one_eq_mod x 8
  norm_num at h
  exact h

theorem shiftRight_8_eq (x : Nat) : x >>> 8 = x / 256 := by
  rw [Nat.shiftRight_eq_div_pow]

theorem shiftRight_16_eq (x : Nat) : x >>> 16 = x / 65536 := by
  rw [Nat.shiftRight_eq_div_pow]

theorem shiftRight_24_eq (x : Nat) : x >>> 24 = x / 16777216 := by
  rw [Nat.shiftRight_eq_div_pow]

/-- C4: for every 32-bit color 0xRRGGBBAA, every coverage byte v and every
32-bit destination BGRA pixel, draw_ass_rgba extracts R, G, B from the top
three bytes, sets A = 255 - (color & 0xFF), and writes the four channels
db' = (v*B*A + db*(D - aa))/D, dg' = (v*G*A + dg*(D - aa))/D,
dr' = (v*R*A + dr*(D - aa))/D, da' = (aa*255 + da*(D - aa))/D with
aa = A*v and D = 255*255, using truncating integer division. -/
theorem c4_draw_ass_rgba_formula (color v dstpix : Nat) (hv : v < 256)
    (hd : dstpix < 4294967296) (hc : color < 4294967296) :
    draw_ass_rgba_pixel color v dstpix % 256 =
      (v * (color / 256 % 256) * (255 - color % 256)
        + dstpix % 256 * (255 * 255 - (255 - color % 256) * v)) / (255 * 255) ∧
    draw_ass_rgba_pixel color v dstpix / 256 % 256 =
      (v * (color / 65536 % 256) * (255 - color % 256)
        + dstpix / 256 % 256 * (255 * 255 - (255 - color % 256) * v)) / (255 * 255) ∧
    draw_ass_rgba_pixel color v dstpix / 65536 % 256 =
      (v * (color / 16777216) * (255 - color % 256)
        + dstpix / 65536 % 256 * (255 * 255 - (255 - color % 256) * v)) / (255 * 255) ∧
    draw_ass_rgba_pixel color v dstpix / 16777216 =
      ((255 - color % 256) * v * 255
        + dstpix / 16777216 * (255 * 255 - (255 - color % 256) * v)) / (255 * 255) := by
  have hr256 : color / 16777216 % 256 = color / 16777216 := Nat.mod_eq_of_lt (by omega)
  have ha256 : dstpix / 16777216 % 256 = dstpix / 16777216 := Nat.mod_eq_of_lt (by omega)
  have hpix : draw_ass_rgba_pixel color v dstpix =
      ((v * (color / 256 % 256) * (255 - color % 256)
          + dstpix % 256 * (255 * 255 - (255 - color % 256) * v)) / (255 * 255)
        ||| ((v * (color / 65536 % 256) * (255 - color % 256)
          + dstpix / 256 % 256 * (255 * 255 - (255 - color % 256) * v)) / (255 * 255)) <<< 8
        ||| ((v * (color / 16777216) * (255 - color % 256)
          + dstpix / 65536 % 256 * (255 * 255 - (255 - color % 256) * v)) / (255 * 255)) <<< 16
        ||| (((255 - color % 256) * v * 255
          + dstpix / 16777216 * (255 * 255 - (255 - color % 256) * v)) / (255 * 255)) <<< 24)
        % 2 ^ 32 := by
    simp only [draw_ass_rgba_pixel, shiftRight_8_eq, shiftRight_16_eq, shiftRight_24_eq,
      and_255_eq_mod, hr256, ha256]
  have hb : (v * (color / 256 % 256) * (255 - color % 256)
      + dstpix % 256 * (255 * 255 - (255 - color % 256) * v)) / (255 * 255) < 256 := by
    have h := @ass_channel_le v (color / 256 % 256) (255 - color % 256)
      (dstpix % 256) (by omega) (by omega) (by omega) (by omega)
    omega
  have hg : (v * (color / 65536 % 256) * (255 - color % 256)
      + dstpix / 256 % 256 * (255 * 255 - (255 - color % 256) * v)) / (255 * 255) < 256 := by
    have h := @ass_channel_le v (color / 65536 % 256) (255 - color % 256)
      (dstpix / 256 % 256) (by omega) (by omega) (by omega) (by omega)
    omega
  have hr : (v * (color / 16777216) * (255 - color % 256)
      + dstpix / 65536 % 256 * (255 * 255 - (255 - color % 256) * v)) / (255 * 255) < 256 := by
    have h := @ass_channel_le v (color / 16777216) (255 - color % 256)
      (dstpix / 65536 % 256) (by omega) (by omega) (by omega) (by omega)
    omega
  have ha : ((255 - color % 256) * v * 255
      + dstpix / 16777216 * (255 * 255 - (255 - color % 256) * v)) / (255 * 255) < 256 := by
    have h := @ass_alpha_le ((255 - color % 256) * v) (dstpix / 16777216)
      (Nat.mul_le_mul (by omega) (by omega)) (by omega)
    omega
  rw [hpix, pack32_eq _ _ _ _ hb hg hr ha]
  refine ⟨by omega, by omega, by omega, by omega⟩

/-- C1: the claim states that draw_rgba attenuates each destination channel by
(255 - sa)/255.  The code divides by 255*255 while subtracting only sa from
255*255, i.e. it attenuates by (255*255 - sa)/(255*255).  At a fully opaque
premultiplied black source pixel 0xFF000000 over destination 0x000000FF the
blue channel comes out 254 instead of the claimed 0 (difference 254 > 1 LSB),
and at a valid premultiplied 50 percent gray source 0x80808080 over
0x000000FF the blue channel overflows one byte and corrupts the green channel
of the packed result (129 instead of 128). -/
theorem c1_draw_rgba_attenuation_bug :
    draw_rgba_pixel 4278190080 255 = 4278190334 ∧
    draw_rgba_pixel 4278190080 255 % 256 = 254 ∧
    rgba_spec_channel 0 255 255 = 0 ∧
    254 > rgba_spec_channel 0 255 255 + 1 ∧
    draw_rgba_pixel 2155905152 255 % 256 = 126 ∧
    draw_rgba_pixel 2155905152 255 / 256 % 256 = 129 ∧
    rgba_spec_channel 128 255 128 = 255 ∧
    rgba_spec_channel 128 0 128 = 128 := by
  decide

theorem c4_draw_ass_rgba_formula_witness :
    draw_ass_rgba_pixel 4278190080 128 4286611584 % 256 =
      (128 * (4278190080 / 256 % 256) * (255 - 4278190080 % 256)
        + 4286611584 % 256 * (255 * 255 - (255 - 4278190080 % 256) * 128)) / (255 * 255) :=
  (c4_draw_ass_rgba_formula 4278190080 128 4286611584 (by decide) (by decide)
    (by decide)).1

/-! ### Loop and update lemmas -/

theorem loopN_succ {α : Type} (f : Nat → α → α) (s n : Nat) (st : α) :
    loopN f s (n+1) st = loopN f (s+1) n (f s st) := rfl

theorem loopN_snoc {α : Type} (f : Nat → α → α) (s n : Nat) (st : α) :
    loopN f s (n+1) st = f (s + n) (loopN f s n st) := by
  induction n generalizing s st with
  | zero => simp [loopN]
  | succ n ih =>
    rw [loopN_succ, ih, loopN_succ]
    have h : s + 1 + n = s + (n + 1) := by omega
    rw [h]

theorem updSlice_same (m : SliceMap) (i : Nat) (s : Slice) : updSlice m i s i = s := by
  simp [updSlice]

theorem updSlice_other (m : SliceMap) (i : Nat) (s : Slice) (j : Nat) (h : j ≠ i) :
    updSlice m i s j = m j := by
  simp [updSlice, h]

/-! ### Alignment lemmas -/

theorem alignDown_eq (z a : Nat) : alignDown z a = a * (z / a) := by
  have h := Nat.div_add_mod z a
  unfold alignDown
  omega

theorem alignDown_le (x a : Nat) : alignDown x a ≤ x := Nat.sub_le _ _

theorem dvd_alignDown (z a : Nat) : a ∣ alignDown z a := by
  rw [alignDown_eq]; exact dvd_mul_right _ _

theorem le_alignUp (x a : Nat) (ha : 0 < a) : x ≤ alignUp x a := by
  unfold alignUp alignDown
  have h := Nat.mod_lt (x + (a - 1)) ha
  omega

theorem dvd_alignUp (x a : Nat) : a ∣ alignUp x a := dvd_alignDown _ _

theorem alignUp_le {x W a : Nat} (ha : 0 < a) (hW : a ∣ W) (hx : x ≤ W) :
    alignUp x a ≤ W := by
  obtain ⟨k, rfl⟩ := hW
  unfold alignUp
  rw [alignDown_eq]
  have h1 : (x + (a - 1)) / a < k + 1 := by
    rw [Nat.div_lt_iff_lt_mul ha]
    have h2 : (k + 1) * a = a * k + a := by ring
    omega
  calc a * ((x + (a - 1)) / a) ≤ a * k := Nat.mul_le_mul_left _ (by omega)
    _ = a * k := rfl

/-- Index arithmetic for row-major slice maps. -/
theorem row_lt_row {s_w y y' sx : Nat} (hsx : sx < s_w) (h : y < y') :
    y * s_w + sx < y' * s_w :=
  calc y * s_w + sx < y * s_w + s_w := by omega
    _ = (y + 1) * s_w := by ring
    _ ≤ y' * s_w := Nat.mul_le_mul_right _ (by omega)

/-! ### mark_rect (draw_bmp.c lines 239-274) -/

/-- The slice-map-plus-any_osd portion of the cache state that mark_rect
reads and writes. -/
structure MarkState where
  m : SliceMap
  anyOsd : Bool

/-- The all-empty slice map produced by clear_rgba_overlay: every slice is
{SLICE_W, 0}. -/
def emptySliceMap : SliceMap := fun _ => ⟨SLICE_W, 0⟩

/-- The body of the row loop of mark_rect: the updates the code performs for
one row y, on pre-aligned coordinates bx0, bx1 with sx0 = bx0 / SLICE_W and
sx1 = bx1 / SLICE_W. -/
def markRowBody (s_w sx0 sx1 bx0 bx1 : Nat) (y : Nat) (st : MarkState) : MarkState :=
  let i0 := y * s_w + sx0
  let i1 := y * s_w + sx1
  let m1 := updSlice st.m i0 ⟨min (st.m i0).x0 (bx0 % SLICE_W), (st.m i0).x1⟩
  let m2 := updSlice m1 i1 ⟨(m1 i1).x0, max (m1 i1).x1 (bx1 % SLICE_W)⟩
  let m3 :=
    if sx0 ≠ sx1 then
      let ma := updSlice m2 i0 ⟨(m2 i0).x0, SLICE_W⟩
      let mb := updSlice ma i1 ⟨0, (ma i1).x1⟩
      loopN (fun x mm => updSlice mm (y * s_w + x) ⟨0, SLICE_W⟩) (sx0 + 1)
        (sx1 - (sx0 + 1)) mb
    else m2
  ⟨m3, true⟩

/-- mark_rect from draw_bmp.c: align the rectangle outward to align_x and
align_y, then widen the touched slice intervals for every row. -/
def mark_rect (s_w ax ay : Nat) (st : MarkState) (x0 y0 x1 y1 : Nat) : MarkState :=
  let bx0 := alignDown x0 ax
  let by0 := alignDown y0 ay
  let bx1 := alignUp x1 ax
  let by1 := alignUp y1 ay
  let sx0 := bx0 / SLICE_W
  let sx1 := bx1 / SLICE_W
  loopN (markRowBody s_w sx0 sx1 bx0 bx1) by0 (by1 - by0) st

/-- The slice-array indices that mark_rect reads or writes, in loop order:
for each row y of the aligned rectangle, line[sx0] and line[sx1], and, when
sx0 is different from sx1, the slices strictly in between. -/
def markRectAccesses (s_w ax ay : Nat) (x0 y0 x1 y1 : Nat) : List Nat :=
  let bx0 := alignDown x0 ax
  let by0 := alignDown y0 ay
  let bx1 := alignUp x1 ax
  let by1 := alignUp y1 ay
  let sx0 := bx0 / SLICE_W
  let sx1 := bx1 / SLICE_W
  (List.range' by0 (by1 - by0)).flatMap (fun y =>
    [y * s_w + sx0, y * s_w + sx1] ++
      (if sx0 ≠ sx1 then
        (List.range' (sx0 + 1) (sx1 - (sx0 + 1))).map (fun x => y * s_w + x)
      else []))

/-- What one row-iteration of mark_rect does to the slice at column sx of the
touched row, as described by the spec; the proved characterization below
relates this description to the code. -/
def markedSlice (sx0 sx1 bx0 bx1 sx : Nat) (old : Slice) : Slice :=
  if sx0 = sx1 then
    if sx = sx0 then ⟨min old.x0 (bx0 % SLICE_W), max old.x1 (bx1 % SLICE_W)⟩ else old
  else if sx = sx0 then ⟨min old.x0 (bx0 % SLICE_W), SLICE_W⟩
  else if sx = sx1 then ⟨0, max old.x1 (bx1 % SLICE_W)⟩
  else if sx0 < sx ∧ sx < sx1 then ⟨0, SLICE_W⟩
  else old

theorem midLoop_at (s_w y : Nat) :
    ∀ (n start : Nat) (m : SliceMap) (j : Nat),
      loopN (fun x mm => updSlice mm (y * s_w + x) ⟨0, SLICE_W⟩) start n m j =
        if y * s_w + start ≤ j ∧ j < y * s_w + start + n then ⟨0, SLICE_W⟩ else m j := by
  intro n
  induction n with
  | zero =>
    intro start m j
    rw [if_neg (by omega)]
    rfl
  | succ n ih =>
    intro start m j
    rw [loopN_snoc]
    by_cases hj : j = y * s_w + (start + n)
    · rw [hj, updSlice_same, if_pos (by omega)]
    · rw [updSlice_other _ _ _ _ hj, ih start m j]
      by_cases hc : y * s_w + start ≤ j ∧ j < y * s_w + start + n
      · rw [if_pos hc, if_pos (by omega)]
      · rw [if_neg hc, if_neg (by omega)]

/-- Pointwise effect of one row-iteration of mark_rect, for slice columns in
range, when the right slice column sx1 is itself in range. -/
theorem markRowBody_at (s_w sx0 sx1 bx0 bx1 y : Nat) (st : MarkState)
    (h01 : sx0 ≤ sx1) (h1 : sx1 < s_w) (y' sx : Nat) (hsx : sx < s_w) :
    (markRowBody s_w sx0 sx1 bx0 bx1 y st).m (y' * s_w + sx) =
      if y' = y then markedSlice sx0 sx1 bx0 bx1 sx (st.m (y' * s_w + sx))
      else st.m (y' * s_w + sx) := by
  by_cases hy : y' = y
  · subst hy
    rw [if_pos rfl]
    by_cases heq : sx0 = sx1
    · subst heq
      by_cases hsx0 : sx = sx0
      · subst hsx0
        simp [markRowBody, markedSlice, updSlice]
      · have hne : y' * s_w + sx ≠ y' * s_w + sx0 := by omega
        simp [markRowBody, markedSlice, updSlice, hsx0, hne]
    · simp only [markRowBody, if_pos (show sx0 ≠ sx1 from heq)]
      have hi01 : y' * s_w + sx1 ≠ y' * s_w + sx0 := by omega
      rw [midLoop_at]
      by_cases hsx0 : sx = sx0
      · subst hsx0
        rw [if_neg (by omega)]
        have hne1 : y' * s_w + sx ≠ y' * s_w + sx1 := by omega
        simp [markedSlice, updSlice, hne1, heq]
      · by_cases hsx1 : sx = sx1
        · subst hsx1
          rw [if_neg (by omega)]
          have hne0 : y' * s_w + sx ≠ y' * s_w + sx0 := by omega
          simp [markedSlice, updSlice, hne0, heq, hsx0]
        · by_cases hmid : sx0 < sx ∧ sx < sx1
          · rw [if_pos (by omega)]
            simp [markedSlice, heq, hsx0, hsx1, hmid]
          · rw [if_neg (by omega)]
            have hne0 : y' * s_w + sx ≠ y' * s_w + sx0 := by omega
            have hne1 : y' * s_w + sx ≠ y' * s_w + sx1 := by omega
            simp [markedSlice, updSlice, heq, hsx0, hsx1, hmid, hne0, hne1]
  · rw [if_neg hy]
    have hsep : y' * s_w + sx < y * s_w ∨ y * s_w + s_w ≤ y' * s_w + sx := by
      rcases Nat.lt_or_ge y' y with h | h
      · exact Or.inl (row_lt_row hsx h)
      · have hyy : y < y' := by omega
        have h2 : (y + 1) * s_w ≤ y' * s_w := Nat.mul_le_mul_right _ (by omega)
        have h3 : (y + 1) * s_w = y * s_w + s_w := by ring
        omega
    have hne0 : y' * s_w + sx ≠ y * s_w + sx0 := by omega
    have hne1 : y' * s_w + sx ≠ y * s_w + sx1 := by omega
    simp only [markRowBody]
    split
    · rw [midLoop_at, if_neg (by omega)]
      simp [updSlice, hne0, hne1]
    · simp [updSlice, hne0, hne1]

/-- Pointwise effect of the whole row loop of mark_rect. -/
theorem markRows_at (s_w sx0 sx1 bx0 bx1 : Nat) (h01 : sx0 ≤ sx1) (h1 : sx1 < s_w) :
    ∀ (n y0 : Nat) (st : MarkState) (y sx : Nat), sx < s_w →
      (loopN (markRowBody s_w sx0 sx1 bx0 bx1) y0 n st).m (y * s_w + sx) =
        if y0 ≤ y ∧ y < y0 + n then
          markedSlice sx0 sx1 bx0 bx1 sx (st.m (y * s_w + sx))
        else st.m (y * s_w + sx) := by
  intro n
  induction n with
  | zero =>
    intro y0 st y sx hsx
    rw [if_neg (by omega)]
    rfl
  | succ n ih =>
    intro y0 st y sx hsx
    rw [loopN_snoc, markRowBody_at _ _ _ _ _ _ _ h01 h1 _ _ hsx, ih y0 st y sx hsx]
    by_cases hy : y = y0 + n
    · rw [if_pos hy, if_neg (by omega), if_pos (by omega)]
    · rw [if_neg hy]
      by_cases hc : y0 ≤ y ∧ y < y0 + n
      · rw [if_pos hc, if_pos (by omega)]
      · rw [if_neg hc, if_neg (by omega)]

/-- The per-row update description only grows a slice interval, and keeps x1
at most SLICE_W. -/
theorem markedSlice_mono (sx0 sx1 bx0 bx1 sx : Nat) (old : Slice)
    (h : old.x1 ≤ SLICE_W) :
    (markedSlice sx0 sx1 bx0 bx1 sx old).x0 ≤ old.x0 ∧
    old.x1 ≤ (markedSlice sx0 sx1 bx0 bx1 sx old).x1 ∧
    (markedSlice sx0 sx1 bx0 bx1 sx old).x1 ≤ SLICE_W := by
  have hb1 : bx1 % SLICE_W < SLICE_W := Nat.mod_lt _ (by norm_num [SLICE_W])
  simp only [markedSlice]
  split
  · split
    · refine ⟨Nat.min_le_left _ _, Nat.le_max_left _ _, ?_⟩
      show max old.x1 (bx1 % SLICE_W) ≤ SLICE_W
      omega
    · exact ⟨le_refl _, le_refl _, h⟩
  · split
    · exact ⟨Nat.min_le_left _ _, h, le_refl _⟩
    · split
      · refine ⟨Nat.zero_le _, Nat.le_max_left _ _, ?_⟩
        show max old.x1 (bx1 % SLICE_W) ≤ SLICE_W
        omega
      · split
        · exact ⟨Nat.zero_le _, h, le_refl _⟩
        · exact ⟨le_refl _, le_refl _, h⟩

/-- C5: mark_rect floor-aligns x0, y0 and ceil-aligns x1, y1 to align_x and
align_y; then for each row y of the aligned rectangle it updates line[sx0].x0
with min(line[sx0].x0, x0 mod SLICE_W), line[sx1].x1 with
max(line[sx1].x1, x1 mod SLICE_W), and when sx0 is different from sx1 it sets
line[sx0].x1 = SLICE_W, line[sx1].x0 = 0 and all slices strictly between to
{0, SLICE_W}; rows outside the aligned range and other slices are untouched;
and the operation is monotone: no slice interval shrinks. -/
theorem c5_mark_rect_characterization (s_w ax ay : Nat) (st : MarkState)
    (x0 y0 x1 y1 : Nat) (hax : 0 < ax) (hay : 0 < ay)
    (hx01 : x0 ≤ x1) (hy01 : y0 ≤ y1)
    (hsx1 : alignUp x1 ax / SLICE_W < s_w)
    (hmono : ∀ j, (st.m j).x1 ≤ SLICE_W) :
    (∀ y sx, sx < s_w →
      (mark_rect s_w ax ay st x0 y0 x1 y1).m (y * s_w + sx) =
        if alignDown y0 ay ≤ y ∧ y < alignUp y1 ay then
          markedSlice (alignDown x0 ax / SLICE_W) (alignUp x1 ax / SLICE_W)
            (alignDown x0 ax) (alignUp x1 ax) sx (st.m (y * s_w + sx))
        else st.m (y * s_w + sx)) ∧
    (∀ y sx, sx < s_w →
      ((mark_rect s_w ax ay st x0 y0 x1 y1).m (y * s_w + sx)).x0 ≤
          (st.m (y * s_w + sx)).x0 ∧
        (st.m (y * s_w + sx)).x1 ≤
          ((mark_rect s_w ax ay st x0 y0 x1 y1).m (y * s_w + sx)).x1) := by
  have h01 : alignDown x0 ax / SLICE_W ≤ alignUp x1 ax / SLICE_W :=
    Nat.div_le_div_right
      (le_trans (alignDown_le x0 ax) (le_trans hx01 (le_alignUp x1 ax hax)))
  have hby : alignDown y0 ay ≤ alignUp y1 ay :=
    le_trans (alignDown_le _ _) (le_trans hy01 (le_alignUp _ _ hay))
  have hmain : ∀ y sx, sx < s_w →
      (mark_rect s_w ax ay st x0 y0 x1 y1).m (y * s_w + sx) =
        if alignDown y0 ay ≤ y ∧ y < alignUp y1 ay then
          markedSlice (alignDown x0 ax / SLICE_W) (alignUp x1 ax / SLICE_W)
            (alignDown x0 ax) (alignUp x1 ax) sx (st.m (y * s_w + sx))
        else st.m (y * s_w + sx) := by
    intro y sx hsx
    have h := markRows_at s_w (alignDown x0 ax / SLICE_W) (alignUp x1 ax / SLICE_W)
      (alignDown x0 ax) (alignUp x1 ax) h01 hsx1
      (alignUp y1 ay - alignDown y0 ay) (alignDown y0 ay) st y sx hsx
    rw [show alignDown y0 ay + (alignUp y1 ay - alignDown y0 ay) = alignUp y1 ay
      from by omega] at h
    simpa only [mark_rect] using h
  refine ⟨hmain, ?_⟩
  intro y sx hsx
  rw [hmain y sx hsx]
  by_cases hc : alignDown y0 ay ≤ y ∧ y < alignUp y1 ay
  · rw [if_pos hc]
    have h := markedSlice_mono (alignDown x0 ax / SLICE_W) (alignUp x1 ax / SLICE_W)
      (alignDown x0 ax) (alignUp x1 ax) sx (st.m (y * s_w + sx)) (hmono _)
    exact ⟨h.1, h.2.1⟩
  · rw [if_neg hc]
    exact ⟨le_refl _, le_refl _⟩

theorem c5_mark_rect_characterization_witness :
    (mark_rect 2 1 1 ⟨emptySliceMap, false⟩ 1 0 3 1).m 0 = ⟨1, 3⟩ :=
  (((c5_mark_rect_characterization 2 1 1 ⟨emptySliceMap, false⟩ 1 0 3 1
      (by decide) (by decide) (by decide) (by decide) (by decide)
      (fun _ => Nat.zero_le _)).1 0 0 (by decide)).trans (by decide))

/-- C3: mark_rect is claimed to access only slice indices y * s_w + sx with
sx < s_w, inside the s_w * H slice array, even when x1 = W and W is a
multiple of SLICE_W.  With W = 256, H = 1, align 1 (so s_w = 1) the
pre-clipped rectangle (0, 0, 256, 1) makes sx1 = x1 / SLICE_W = 1 = s_w, and
the code reads and writes slices[1], one element past the s_w * H = 1
element array; the model update indeed lands on index 1. -/
theorem c3_mark_rect_oob :
    1 ∈ markRectAccesses 1 1 1 0 0 256 1 ∧ ¬ 1 < 1 * 1 ∧
    (mark_rect 1 1 1 ⟨emptySliceMap, false⟩ 0 0 256 1).m 1 ≠ emptySliceMap 1 := by
  decide

/-- C7: the claimed invariant is that any_osd is true iff some slice of the
s_w * H slice map is non-empty (x0 ≤ x1), and that mark_rect preserves the
equivalence.  Starting from the all-empty map with any_osd = false (the
equivalence holds: third conjunct), the pre-clipped degenerate rectangle
(256, 0, 256, 1) on a 256-wide, 1-row map (s_w = 1, align 1) makes mark_rect
set any_osd = true while the only write lands outside the map (index 1, the
s_w * H = 1 element array has only index 0), so every in-range slice stays
empty and the equivalence is violated. -/
theorem c7_any_osd_violation :
    ((⟨emptySliceMap, false⟩ : MarkState).anyOsd = false) ∧
    (∀ y, y < 1 → ∀ sx, sx < 1 →
      (emptySliceMap (y * 1 + sx)).x1 < (emptySliceMap (y * 1 + sx)).x0) ∧
    (mark_rect 1 1 1 ⟨emptySliceMap, false⟩ 256 0 256 1).anyOsd = true ∧
    (∀ y, y < 1 → ∀ sx, sx < 1 →
      ((mark_rect 1 1 1 ⟨emptySliceMap, false⟩ 256 0 256 1).m (y * 1 + sx)).x1 <
        ((mark_rect 1 1 1 ⟨emptySliceMap, false⟩ 256 0 256 1).m (y * 1 + sx)).x0) ∧
    (mark_rect 1 1 1 ⟨emptySliceMap, false⟩ 256 0 256 1).m 1 = ⟨0, 0⟩ := by
  decide

theorem SLICE_W_eq : SLICE_W = 256 := rfl

theorem dvd_min {a x y : Nat} (hx : a ∣ x) (hy : a ∣ y) : a ∣ min x y := by
  rcases le_total x y with h | h
  · rwa [min_eq_left h]
  · rwa [min_eq_right h]

theorem dvd_max {a x y : Nat} (hx : a ∣ x) (hy : a ∣ y) : a ∣ max x y := by
  rcases le_total x y with h | h
  · rwa [max_eq_right h]
  · rwa [max_eq_left h]

/-- The invariant behind the three assertions of blend_overlay_with_video:
in every slice, both ends divide by align_x, and a non-zero right end stays
within the frame width W of its slice column. -/
def sliceInv (s_w W ax : Nat) (m : SliceMap) : Prop :=
  ∀ j, ax ∣ (m j).x0 ∧ ax ∣ (m j).x1 ∧
    ((m j).x1 = 0 ∨ j % s_w * SLICE_W + (m j).x1 ≤ W)

theorem updSlice_inv {s_w W ax : Nat} {m : SliceMap} {i : Nat} {v : Slice}
    (h : sliceInv s_w W ax m)
    (hv : ax ∣ v.x0 ∧ ax ∣ v.x1 ∧ (v.x1 = 0 ∨ i % s_w * SLICE_W + v.x1 ≤ W)) :
    sliceInv s_w W ax (updSlice m i v) := by
  intro j
  by_cases hj : j = i
  · subst hj
    rw [updSlice_same]
    exact hv
  · rw [updSlice_other _ _ _ _ hj]
    exact h j

theorem add_mul_mod (y s_w sx : Nat) : (y * s_w + sx) % s_w = sx % s_w := by
  rw [show y * s_w + sx = sx + y * s_w from by ring, Nat.add_mul_mod_self_right]

theorem midLoop_inv (s_w W ax y bx1 : Nat) (h256 : ax ∣ SLICE_W) (hs_w : 0 < s_w)
    (hbW : bx1 ≤ W) :
    ∀ (n start : Nat) (m : SliceMap), sliceInv s_w W ax m →
      start + n ≤ bx1 / SLICE_W → bx1 / SLICE_W ≤ s_w →
      sliceInv s_w W ax
        (loopN (fun x mm => updSlice mm (y * s_w + x) ⟨0, SLICE_W⟩) start n m) := by
  intro n
  induction n with
  | zero =>
    intro start m h _ _
    exact h
  | succ n ih =>
    intro start m h hr hs
    rw [loopN_succ]
    apply ih (start + 1) _ _ (by omega) hs
    apply updSlice_inv h
    refine ⟨dvd_zero ax, h256, Or.inr ?_⟩
    show (y * s_w + start) % s_w * SLICE_W + SLICE_W ≤ W
    rw [add_mul_mod, Nat.mod_eq_of_lt (show start < s_w from by omega)]
    have h1 : (start + 1) * SLICE_W ≤ bx1 / SLICE_W * SLICE_W :=
      Nat.mul_le_mul_right _ (by omega)
    have h2 : bx1 / SLICE_W * SLICE_W ≤ bx1 := Nat.div_mul_le_self _ _
    have h3 : (start + 1) * SLICE_W = start * SLICE_W + SLICE_W := by ring
    omega

theorem markRowBody_inv (s_w W ax sx0 sx1 bx0 bx1 y : Nat)
    (h256 : ax ∣ SLICE_W) (hsw : 0 < s_w)
    (hbx0 : ax ∣ bx0) (hbx1 : ax ∣ bx1)
    (h01 : sx0 ≤ sx1) (hs1 : sx1 = bx1 / SLICE_W)
    (hbW : bx1 ≤ W) (hWs : W ≤ s_w * SLICE_W)
    (st : MarkState) (h : sliceInv s_w W ax st.m) :
    sliceInv s_w W ax (markRowBody s_w sx0 sx1 bx0 bx1 y st).m := by
  have hmod0 : ax ∣ bx0 % SLICE_W := (Nat.dvd_mod_iff h256).mpr hbx0
  have hmod1 : ax ∣ bx1 % SLICE_W := (Nat.dvd_mod_iff h256).mpr hbx1
  have hs1le : sx1 ≤ s_w := by
    rw [hs1]
    calc bx1 / SLICE_W ≤ s_w * SLICE_W / SLICE_W :=
          Nat.div_le_div_right (le_trans hbW hWs)
      _ = s_w := by simp [SLICE_W_eq]
  have hsx1mul : sx1 * SLICE_W ≤ bx1 := by
    rw [hs1]; exact Nat.div_mul_le_self _ _
  have hbx1disj : bx1 % SLICE_W = 0 ∨
      (y * s_w + sx1) % s_w * SLICE_W + bx1 % SLICE_W ≤ W := by
    rw [add_mul_mod]
    by_cases hseq : sx1 = s_w
    · left
      have hge : s_w * SLICE_W ≤ bx1 := by
        have := hsx1mul
        rw [hseq] at this
        omega
      have heq : bx1 = s_w * SLICE_W := by omega
      rw [heq, Nat.mul_mod_left]
    · have hlt : sx1 < s_w := by omega
      rw [Nat.mod_eq_of_lt hlt]
      by_cases hz : bx1 % SLICE_W = 0
      · exact Or.inl hz
      · right
        have hdm := Nat.div_add_mod bx1 SLICE_W
        have : sx1 * SLICE_W = SLICE_W * (bx1 / SLICE_W) := by
          rw [hs1]; ring
        omega
  -- the sequence of stores
  have h1 : sliceInv s_w W ax
      (updSlice st.m (y * s_w + sx0)
        ⟨min (st.m (y * s_w + sx0)).x0 (bx0 % SLICE_W), (st.m (y * s_w + sx0)).x1⟩) := by
    apply updSlice_inv h
    exact ⟨dvd_min (h _).1 hmod0, (h _).2.1, (h _).2.2⟩
  generalize hm1 : (updSlice st.m (y * s_w + sx0)
      ⟨min (st.m (y * s_w + sx0)).x0 (bx0 % SLICE_W), (st.m (y * s_w + sx0)).x1⟩) = m1 at h1
  have h2 : sliceInv s_w W ax
      (updSlice m1 (y * s_w + sx1)
        ⟨(m1 (y * s_w + sx1)).x0,
          max (m1 (y * s_w + sx1)).x1 (bx1 % SLICE_W)⟩) := by
    apply updSlice_inv h1
    refine ⟨(h1 _).1, dvd_max (h1 _).2.1 hmod1, ?_⟩
    show max (m1 (y * s_w + sx1)).x1 (bx1 % SLICE_W) = 0 ∨
      (y * s_w + sx1) % s_w * SLICE_W + max (m1 (y * s_w + sx1)).x1 (bx1 % SLICE_W) ≤ W
    have hold := (h1 (y * s_w + sx1)).2.2
    omega
  simp only [markRowBody, hm1]
  split
  · rename_i hne
    have hlt01 : sx0 < sx1 := by omega
    have hsx0lt : sx0 < s_w := by omega
    generalize hm2 : (updSlice m1 (y * s_w + sx1)
        ⟨(m1 (y * s_w + sx1)).x0,
          max (m1 (y * s_w + sx1)).x1 (bx1 % SLICE_W)⟩) = m2 at h2
    have h3 : sliceInv s_w W ax
        (updSlice m2 (y * s_w + sx0) ⟨(m2 (y * s_w + sx0)).x0, SLICE_W⟩) := by
      apply updSlice_inv h2
      refine ⟨(h2 _).1, h256, Or.inr ?_⟩
      show (y * s_w + sx0) % s_w * SLICE_W + SLICE_W ≤ W
      rw [add_mul_mod, Nat.mod_eq_of_lt hsx0lt]
      have hg : (sx0 + 1) * SLICE_W ≤ sx1 * SLICE_W := Nat.mul_le_mul_right _ (by omega)
      have he : (sx0 + 1) * SLICE_W = sx0 * SLICE_W + SLICE_W := by ring
      omega
    generalize hm3 : (updSlice m2 (y * s_w + sx0)
        ⟨(m2 (y * s_w + sx0)).x0, SLICE_W⟩) = m3 at h3
    have h4 : sliceInv s_w W ax
        (updSlice m3 (y * s_w + sx1) ⟨0, (m3 (y * s_w + sx1)).x1⟩) := by
      apply updSlice_inv h3
      exact ⟨dvd_zero ax, (h3 _).2.1, (h3 _).2.2⟩
    apply midLoop_inv s_w W ax y bx1 h256 hsw hbW _ _ _ h4
    · rw [← hs1]; omega
    · rw [← hs1]; exact hs1le
  · exact h2

theorem mark_rect_inv (s_w W ax ay : Nat) (h256 : ax ∣ SLICE_W) (hsw : 0 < s_w)
    (hax : 0 < ax) (hWd : ax ∣ W) (hWs : W ≤ s_w * SLICE_W)
    (st : MarkState) (h : sliceInv s_w W ax st.m)
    (x0 y0 x1 y1 : Nat) (hx01 : x0 ≤ x1) (hxW : x1 ≤ W) :
    sliceInv s_w W ax (mark_rect s_w ax ay st x0 y0 x1 y1).m := by
  have hbW : alignUp x1 ax ≤ W := alignUp_le hax hWd hxW
  have h01 : alignDown x0 ax / SLICE_W ≤ alignUp x1 ax / SLICE_W :=
    Nat.div_le_div_right
      (le_trans (alignDown_le x0 ax) (le_trans hx01 (le_alignUp x1 ax hax)))
  have hloop : ∀ (n y0' : Nat) (st' : MarkState), sliceInv s_w W ax st'.m →
      sliceInv s_w W ax
        (loopN (markRowBody s_w (alignDown x0 ax / SLICE_W) (alignUp x1 ax / SLICE_W)
          (alignDown x0 ax) (alignUp x1 ax)) y0' n st').m := by
    intro n
    induction n with
    | zero => intro _ st' h'; exact h'
    | succ n ih =>
      intro y0' st' h'
      rw [loopN_succ]
      exact ih _ _ (markRowBody_inv s_w W ax _ _ _ _ y0' h256 hsw
        (dvd_alignDown _ _) (dvd_alignUp _ _) h01 rfl hbW hWs st' h')
  exact hloop _ _ _ h

/-- Rasterization of a list of pre-clipped rectangles: fold mark_rect over
the list, mirroring the per-part mark_rect calls of render_ass/render_rgba. -/
def markRectList (s_w ax ay : Nat) (st : MarkState)
    (rects : List (Nat × Nat × Nat × Nat)) : MarkState :=
  rects.foldl (fun acc r => mark_rect s_w ax ay acc r.1 r.2.1 r.2.2.1 r.2.2.2) st

theorem markRectList_inv (s_w W ax ay : Nat) (h256 : ax ∣ SLICE_W) (hsw : 0 < s_w)
    (hax : 0 < ax) (hWd : ax ∣ W) (hWs : W ≤ s_w * SLICE_W) :
    ∀ (rects : List (Nat × Nat × Nat × Nat)) (st : MarkState),
      sliceInv s_w W ax st.m →
      (∀ r ∈ rects, r.1 ≤ r.2.2.1 ∧ r.2.2.1 ≤ W) →
      sliceInv s_w W ax (markRectList s_w ax ay st rects).m := by
  intro rects
  induction rects with
  | nil => intro st h _; exact h
  | cons r rs ih =>
    intro st h hr
    have h1 := mark_rect_inv s_w W ax ay h256 hsw hax hWd hWs st h
      r.1 r.2.1 r.2.2.1 r.2.2.2 (hr r (by simp)).1 (hr r (by simp)).2
    exact ih _ h1 (fun q hq => hr q (by simp [hq]))

theorem emptySliceMap_inv (s_w W ax : Nat) (h256 : ax ∣ SLICE_W) :
    sliceInv s_w W ax emptySliceMap := by
  intro j
  exact ⟨h256, dvd_zero ax, Or.inl rfl⟩

/-- C6: starting from the cleared slice map, after rasterizing any list of
pre-clipped rectangles via mark_rect (align_x dividing SLICE_W and the
rounded width W, W within the slice map), every slice the blend loop would
process (sx < s_w, width x1 - x0 positive) satisfies the three assertions of
blend_overlay_with_video: x = sx*SLICE_W + x0 is align_x aligned, the width
w = x1 - x0 is align_x aligned, and x + w ≤ W. -/
theorem c6_blend_strip_alignment (s_w W ax ay : Nat)
    (rects : List (Nat × Nat × Nat × Nat))
    (h256 : ax ∣ SLICE_W) (hax : 0 < ax) (hsw : 0 < s_w) (hWd : ax ∣ W)
    (hWs : W ≤ s_w * SLICE_W)
    (hrects : ∀ r ∈ rects, r.1 ≤ r.2.2.1 ∧ r.2.2.1 ≤ W) :
    ∀ y sx, sx < s_w →
      ((markRectList s_w ax ay ⟨emptySliceMap, false⟩ rects).m (y * s_w + sx)).x0 <
        ((markRectList s_w ax ay ⟨emptySliceMap, false⟩ rects).m (y * s_w + sx)).x1 →
      (sx * SLICE_W +
          ((markRectList s_w ax ay ⟨emptySliceMap, false⟩ rects).m (y * s_w + sx)).x0)
          % ax = 0 ∧
      (((markRectList s_w ax ay ⟨emptySliceMap, false⟩ rects).m (y * s_w + sx)).x1 -
          ((markRectList s_w ax ay ⟨emptySliceMap, false⟩ rects).m (y * s_w + sx)).x0)
          % ax = 0 ∧
      sx * SLICE_W +
          ((markRectList s_w ax ay ⟨emptySliceMap, false⟩ rects).m (y * s_w + sx)).x0 +
          (((markRectList s_w ax ay ⟨emptySliceMap, false⟩ rects).m (y * s_w + sx)).x1 -
            ((markRectList s_w ax ay ⟨emptySliceMap, false⟩ rects).m (y * s_w + sx)).x0)
          ≤ W := by
  intro y sx hsx hw
  have hinv := markRectList_inv s_w W ax ay h256 hsw hax hWd hWs rects
    ⟨emptySliceMap, false⟩ (emptySliceMap_inv s_w W ax h256) hrects
  have hj := hinv (y * s_w + sx)
  rw [add_mul_mod, Nat.mod_eq_of_lt hsx] at hj
  obtain ⟨hd0, hd1, hb⟩ := hj
  refine ⟨?_, ?_, ?_⟩
  · exact Nat.mod_eq_zero_of_dvd (dvd_add (Dvd.dvd.mul_left h256 sx) hd0)
  · exact Nat.mod_eq_zero_of_dvd (Nat.dvd_sub' hd1 hd0)
  · omega

theorem c6_blend_strip_alignment_witness :
    (0 * SLICE_W +
        ((markRectList 2 2 1 ⟨emptySliceMap, false⟩ [(2, 0, 6, 1)]).m (0 * 2 + 0)).x0)
        % 2 = 0 ∧
    (((markRectList 2 2 1 ⟨emptySliceMap, false⟩ [(2, 0, 6, 1)]).m (0 * 2 + 0)).x1 -
        ((markRectList 2 2 1 ⟨emptySliceMap, false⟩ [(2, 0, 6, 1)]).m (0 * 2 + 0)).x0)
        % 2 = 0 ∧
    0 * SLICE_W +
        ((markRectList 2 2 1 ⟨emptySliceMap, false⟩ [(2, 0, 6, 1)]).m (0 * 2 + 0)).x0 +
        (((markRectList 2 2 1 ⟨emptySliceMap, false⟩ [(2, 0, 6, 1)]).m (0 * 2 + 0)).x1 -
          ((markRectList 2 2 1 ⟨emptySliceMap, false⟩ [(2, 0, 6, 1)]).m (0 * 2 + 0)).x0)
        ≤ 260 :=
  c6_blend_strip_alignment 2 260 2 1 [(2, 0, 6, 1)] (by decide) (by decide) (by decide)
    (by decide) (by decide) (by decide) 0 0 (by decide) (by decide)

/-! ### clear_rgba_overlay (draw_bmp.c lines 458-479) -/

/-- The state clear_rgba_overlay operates on: the slice map, the 32-bit
pixel words of rgba_overlay (indexed row, column), and any_osd. -/
structure OvState where
  m : SliceMap
  px : Nat → Nat → Nat
  anyOsd : Bool

/-- One iteration of the inner loop of clear_rgba_overlay: if the slice at
(y, sx) has x0 <= x1, zero the pixels px[y][sx*SLICE_W + x0 .. sx*SLICE_W + x1)
(the memset of (x1 - x0) 32-bit words at px + x0 with px advanced by
sx * SLICE_W) and reset the slice to the empty state {SLICE_W, 0}. -/
def clearSliceStep (s_w y sx : Nat) (st : OvState) : OvState :=
  let s := st.m (y * s_w + sx)
  if s.x0 ≤ s.x1 then
    { st with
      m := updSlice st.m (y * s_w + sx) ⟨SLICE_W, 0⟩,
      px := fun yy xx =>
        if yy = y ∧ sx * SLICE_W + s.x0 ≤ xx ∧ xx < sx * SLICE_W + s.x1 then 0
        else st.px yy xx }
  else st

/-- clear_rgba_overlay from draw_bmp.c: iterate all rows and slice columns,
zero the covered pixel ranges of non-empty slices, reset those slices, then
set any_osd = false. -/
def clear_rgba_overlay (h s_w : Nat) (st : OvState) : OvState :=
  let st1 := loopN (fun y acc => loopN (clearSliceStep s_w y) 0 s_w acc) 0 h st
  { st1 with anyOsd := false }

/-- Whether pixel column xx of row y is covered by some non-empty slice with
column index in [start, start + n), per slice map m. -/
def coveredSpan (m : SliceMap) (s_w y start : Nat) : Nat → Nat → Bool
  | 0, _ => false
  | n+1, xx =>
    coveredSpan m s_w y start n xx ||
      decide ((m (y * s_w + (start + n))).x0 ≤ (m (y * s_w + (start + n))).x1 ∧
        (start + n) * SLICE_W + (m (y * s_w + (start + n))).x0 ≤ xx ∧
        xx < (start + n) * SLICE_W + (m (y * s_w + (start + n))).x1)

theorem coveredSpan_congr (m1 m2 : SliceMap) (s_w y start : Nat) :
    ∀ n xx, (∀ sx, start ≤ sx → sx < start + n → m1 (y * s_w + sx) = m2 (y * s_w + sx)) →
      coveredSpan m1 s_w y start n xx = coveredSpan m2 s_w y start n xx := by
  intro n
  induction n with
  | zero => intro xx _; rfl
  | succ n ih =>
    intro xx hagree
    simp only [coveredSpan]
    rw [ih xx (fun sx h1 h2 => hagree sx h1 (by omega)), hagree (start + n) (by omega) (by omega)]

theorem coveredSpan_iff (m : SliceMap) (s_w y start : Nat) :
    ∀ n xx, coveredSpan m s_w y start n xx = true ↔
      ∃ sx, start ≤ sx ∧ sx < start + n ∧
        (m (y * s_w + sx)).x0 ≤ (m (y * s_w + sx)).x1 ∧
        sx * SLICE_W + (m (y * s_w + sx)).x0 ≤ xx ∧
        xx < sx * SLICE_W + (m (y * s_w + sx)).x1 := by
  intro n
  induction n with
  | zero =>
    intro xx
    simp only [coveredSpan]
    constructor
    · intro h; cases h
    · rintro ⟨sx, h1, h2, _⟩; omega
  | succ n ih =>
    intro xx
    simp only [coveredSpan, Bool.or_eq_true, decide_eq_true_eq, ih]
    constructor
    · rintro (⟨sx, h1, h2, h3⟩ | h)
      · exact ⟨sx, h1, by omega, h3⟩
      · exact ⟨start + n, by omega, by omega, h⟩
    · rintro ⟨sx, h1, h2, h3⟩
      by_cases hs : sx = start + n
      · subst hs; exact Or.inr h3
      · exact Or.inl ⟨sx, h1, by omega, h3⟩

theorem clearRow_char (s_w y : Nat) :
    ∀ (n start : Nat) (st : OvState),
      (∀ j, (loopN (clearSliceStep s_w y) start n st).m j =
          if y * s_w + start ≤ j ∧ j < y * s_w + (start + n) ∧
              (st.m j).x0 ≤ (st.m j).x1
          then ⟨SLICE_W, 0⟩ else st.m j) ∧
      (∀ yy xx, (loopN (clearSliceStep s_w y) start n st).px yy xx =
          if yy = y ∧ coveredSpan st.m s_w y start n xx = true then 0
          else st.px yy xx) ∧
      (loopN (clearSliceStep s_w y) start n st).anyOsd = st.anyOsd := by
  intro n
  induction n with
  | zero =>
    intro start st
    refine ⟨fun j => ?_, fun yy xx => ?_, rfl⟩
    · rw [if_neg (by omega)]; rfl
    · rw [if_neg (by simp [coveredSpan])]; rfl
  | succ n ih =>
    intro start st
    obtain ⟨ihm, ihp, iha⟩ := ih start st
    rw [loopN_snoc]
    have hread : (loopN (clearSliceStep s_w y) start n st).m (y * s_w + (start + n)) =
        st.m (y * s_w + (start + n)) := by
      rw [ihm, if_neg (by omega)]
    refine ⟨fun j => ?_, fun yy xx => ?_, ?_⟩
    · simp only [clearSliceStep, hread]
      by_cases hg : (st.m (y * s_w + (start + n))).x0 ≤ (st.m (y * s_w + (start + n))).x1
      · rw [if_pos hg]
        show updSlice (loopN (clearSliceStep s_w y) start n st).m
          (y * s_w + (start + n)) ⟨SLICE_W, 0⟩ j = _
        by_cases hj : j = y * s_w + (start + n)
        · subst hj
          rw [updSlice_same, if_pos ⟨by omega, by omega, hg⟩]
        · rw [updSlice_other _ _ _ _ hj, ihm j]
          by_cases hc : y * s_w + start ≤ j ∧ j < y * s_w + (start + n) ∧
              (st.m j).x0 ≤ (st.m j).x1
          · rw [if_pos hc, if_pos ⟨hc.1, by omega, hc.2.2⟩]
          · rw [if_neg hc, if_neg (by
              intro hcc
              exact hc ⟨hcc.1, by omega, hcc.2.2⟩)]
      · rw [if_neg hg, ihm j]
        by_cases hc : y * s_w + start ≤ j ∧ j < y * s_w + (start + n) ∧
            (st.m j).x0 ≤ (st.m j).x1
        · rw [if_pos hc, if_pos ⟨hc.1, by omega, hc.2.2⟩]
        · rw [if_neg hc, if_neg (by
            intro hcc
            by_cases hj : j = y * s_w + (start + n)
            · subst hj; exact hg hcc.2.2
            · exact hc ⟨hcc.1, by omega, hcc.2.2⟩)]
    · simp only [clearSliceStep, hread]
      by_cases hg : (st.m (y * s_w + (start + n))).x0 ≤ (st.m (y * s_w + (start + n))).x1
      · rw [if_pos hg]
        show (if yy = y ∧ (start + n) * SLICE_W + (st.m (y * s_w + (start + n))).x0 ≤ xx ∧
            xx < (start + n) * SLICE_W + (st.m (y * s_w + (start + n))).x1 then 0
          else (loopN (clearSliceStep s_w y) start n st).px yy xx) = _
        rw [ihp yy xx]
        by_cases hyy : yy = y
        · by_cases hstrip : (start + n) * SLICE_W + (st.m (y * s_w + (start + n))).x0 ≤ xx ∧
              xx < (start + n) * SLICE_W + (st.m (y * s_w + (start + n))).x1
          · rw [if_pos ⟨hyy, hstrip⟩, if_pos ⟨hyy, by
              simp only [coveredSpan, Bool.or_eq_true, decide_eq_true_eq]
              exact Or.inr ⟨hg, hstrip⟩⟩]
          · rw [if_neg (by
              intro hcc
              exact hstrip ⟨hcc.2.1, hcc.2.2⟩)]
            by_cases hcn : coveredSpan st.m s_w y start n xx = true
            · rw [if_pos ⟨hyy, hcn⟩, if_pos ⟨hyy, by
                simp only [coveredSpan, Bool.or_eq_true]
                exact Or.inl hcn⟩]
            · rw [if_neg (fun hcc => hcn hcc.2), if_neg (by
                intro hcc
                have h1 := hcc.2
                simp only [coveredSpan, Bool.or_eq_true, decide_eq_true_eq] at h1
                rcases h1 with h1 | h1
                · exact hcn h1
                · exact hstrip ⟨h1.2.1, h1.2.2⟩)]
        · rw [if_neg (fun h => hyy h.1), if_neg (fun h => hyy h.1),
            if_neg (fun h => hyy h.1)]
      · rw [if_neg hg, ihp yy xx]
        by_cases hyy : yy = y
        · by_cases hcn : coveredSpan st.m s_w y start n xx = true
          · rw [if_pos ⟨hyy, hcn⟩, if_pos ⟨hyy, by
              simp only [coveredSpan, Bool.or_eq_true]
              exact Or.inl hcn⟩]
          · rw [if_neg (fun hcc => hcn hcc.2), if_neg (by
              intro hcc
              have h1 := hcc.2
              simp only [coveredSpan, Bool.or_eq_true, decide_eq_true_eq] at h1
              rcases h1 with h1 | h1
              · exact hcn h1
              · exact hg h1.1)]
        · rw [if_neg (fun h => hyy h.1), if_neg (fun h => hyy h.1)]
    · simp only [clearSliceStep, hread]
      by_cases hg : (st.m (y * s_w + (start + n))).x0 ≤ (st.m (y * s_w + (start + n))).x1
      · rw [if_pos hg]
        exact iha
      · rw [if_neg hg]
        exact iha

theorem row_decomp_div {s_w : Nat} (hsw : 0 < s_w) {sx : Nat} (h : sx < s_w) (y : Nat) :
    (y * s_w + sx) / s_w = y := by
  rw [show y * s_w + sx = sx + y * s_w from by ring, Nat.add_mul_div_right _ _ hsw,
    Nat.div_eq_of_lt h]
  omega

theorem row_range_iff {s_w : Nat} (hsw : 0 < s_w) (y j : Nat) :
    y * s_w ≤ j ∧ j < y * s_w + s_w ↔ j / s_w = y := by
  constructor
  · rintro ⟨h1, h2⟩
    refine Nat.div_eq_of_lt_le h1 ?_
    have e : (y + 1) * s_w = y * s_w + s_w := by ring
    omega
  · rintro rfl
    refine ⟨Nat.div_mul_le_self _ _, ?_⟩
    have hd := Nat.div_add_mod j s_w
    have hm := Nat.mod_lt j hsw
    have e : j / s_w * s_w = s_w * (j / s_w) := by ring
    omega

theorem clearAll_char (s_w : Nat) (hsw : 0 < s_w) :
    ∀ (n start : Nat) (st : OvState),
      (∀ j, (loopN (fun y acc => loopN (clearSliceStep s_w y) 0 s_w acc) start n st).m j =
          if start ≤ j / s_w ∧ j / s_w < start + n ∧ (st.m j).x0 ≤ (st.m j).x1
          then ⟨SLICE_W, 0⟩ else st.m j) ∧
      (∀ yy xx,
          (loopN (fun y acc => loopN (clearSliceStep s_w y) 0 s_w acc) start n st).px yy xx =
          if start ≤ yy ∧ yy < start + n ∧ coveredSpan st.m s_w yy 0 s_w xx = true then 0
          else st.px yy xx) ∧
      (loopN (fun y acc => loopN (clearSliceStep s_w y) 0 s_w acc) start n st).anyOsd =
        st.anyOsd := by
  intro n
  induction n with
  | zero =>
    intro start st
    refine ⟨fun j => ?_, fun yy xx => ?_, rfl⟩
    · rw [if_neg (by omega)]; rfl
    · rw [if_neg (by omega)]; rfl
  | succ n ih =>
    intro start st
    obtain ⟨ihm, ihp, iha⟩ := ih start st
    rw [loopN_snoc]
    obtain ⟨rm, rp, ra⟩ := clearRow_char s_w (start + n) s_w 0
      (loopN (fun y acc => loopN (clearSliceStep s_w y) 0 s_w acc) start n st)
    refine ⟨fun j => ?_, fun yy xx => ?_, ?_⟩
    · show (loopN (clearSliceStep s_w (start + n)) 0 s_w
        (loopN (fun y acc => loopN (clearSliceStep s_w y) 0 s_w acc) start n st)).m j = _
      rw [rm j]
      by_cases hrow : j / s_w = start + n
      · have hwj : (start + n) * s_w ≤ j ∧ j < (start + n) * s_w + s_w :=
          (row_range_iff hsw _ j).mpr hrow
        have hprev : (loopN (fun y acc => loopN (clearSliceStep s_w y) 0 s_w acc)
            start n st).m j = st.m j := by
          rw [ihm j, if_neg (by omega)]
        rw [hprev]
        by_cases hgj : (st.m j).x0 ≤ (st.m j).x1
        · rw [if_pos ⟨by omega, by omega, hgj⟩, if_pos ⟨by omega, by omega, hgj⟩]
        · rw [if_neg (by intro hc; exact hgj hc.2.2), if_neg (by intro hc; exact hgj hc.2.2)]
      · rw [if_neg (by
          intro hc
          exact hrow ((row_range_iff hsw _ j).mp ⟨by omega, by omega⟩))]
        rw [ihm j]
        by_cases hc : start ≤ j / s_w ∧ j / s_w < start + n ∧ (st.m j).x0 ≤ (st.m j).x1
        · rw [if_pos hc, if_pos ⟨hc.1, by omega, hc.2.2⟩]
        · rw [if_neg hc, if_neg (by
            intro hcc
            exact hc ⟨hcc.1, by omega, hcc.2.2⟩)]
    · show (loopN (clearSliceStep s_w (start + n)) 0 s_w
        (loopN (fun y acc => loopN (clearSliceStep s_w y) 0 s_w acc) start n st)).px yy xx = _
      have hagree : ∀ sx, 0 ≤ sx → sx < 0 + s_w →
          (loopN (fun y acc => loopN (clearSliceStep s_w y) 0 s_w acc) start n st).m
            ((start + n) * s_w + sx) = st.m ((start + n) * s_w + sx) := by
        intro sx _ hsx
        rw [ihm, if_neg (by
          have hdv : ((start + n) * s_w + sx) / s_w = start + n :=
            row_decomp_div hsw (by omega) _
          omega)]
      have hcovEq : coveredSpan
          (loopN (fun y acc => loopN (clearSliceStep s_w y) 0 s_w acc) start n st).m
          s_w (start + n) 0 s_w xx = coveredSpan st.m s_w (start + n) 0 s_w xx :=
        coveredSpan_congr _ _ _ _ _ s_w xx hagree
      rw [rp yy xx, hcovEq, ihp yy xx]
      by_cases hyy : yy = start + n
      · by_cases hcov : coveredSpan st.m s_w (start + n) 0 s_w xx = true
        · rw [if_pos ⟨hyy, hcov⟩,
            if_pos ⟨by omega, by omega, by rw [hyy]; exact hcov⟩]
        · rw [if_neg (fun hc => hcov hc.2)]
          rw [if_neg (by intro hc; omega), if_neg (by
            intro hc
            rw [hyy] at hc
            exact hcov hc.2.2)]
      · rw [if_neg (fun hc => hyy hc.1)]
        by_cases hc : start ≤ yy ∧ yy < start + n ∧ coveredSpan st.m s_w yy 0 s_w xx = true
        · rw [if_pos hc, if_pos ⟨hc.1, by omega, hc.2.2⟩]
        · rw [if_neg hc, if_neg (by
            intro hcc
            exact hc ⟨hcc.1, by omega, hcc.2.2⟩)]
    · show (loopN (clearSliceStep s_w (start + n)) 0 s_w
        (loopN (fun y acc => loopN (clearSliceStep s_w y) 0 s_w acc) start n st)).anyOsd = _
      rw [ra, iha]

attribute [ext] Slice

/-- C8: after clear_rgba_overlay, every slice of the slice map is the empty
state {SLICE_W, 0} (given that empty slices are canonical, as maintained by
the code), any_osd is false, and - provided every non-zero pixel lay in the
covered range of a non-empty slice of its row - every pixel of rgba_overlay
is zero; moreover pixels outside all covered ranges of previously non-empty
slices are untouched. -/
theorem c8_clear_rgba_overlay (H s_w : Nat) (hsw : 0 < s_w) (st : OvState)
    (hempty : ∀ j, (st.m j).x0 ≤ (st.m j).x1 ∨
      ((st.m j).x0 = SLICE_W ∧ (st.m j).x1 = 0))
    (hcov : ∀ y xx, y < H → xx < s_w * SLICE_W → st.px y xx ≠ 0 →
      ∃ sx, sx < s_w ∧ (st.m (y * s_w + sx)).x0 ≤ (st.m (y * s_w + sx)).x1 ∧
        sx * SLICE_W + (st.m (y * s_w + sx)).x0 ≤ xx ∧
        xx < sx * SLICE_W + (st.m (y * s_w + sx)).x1) :
    (∀ y sx, y < H → sx < s_w →
      (clear_rgba_overlay H s_w st).m (y * s_w + sx) = ⟨SLICE_W, 0⟩) ∧
    (clear_rgba_overlay H s_w st).anyOsd = false ∧
    (∀ y xx, y < H → xx < s_w * SLICE_W → (clear_rgba_overlay H s_w st).px y xx = 0) ∧
    (∀ yy xx,
      (∀ sx, sx < s_w → ¬((st.m (yy * s_w + sx)).x0 ≤ (st.m (yy * s_w + sx)).x1 ∧
          sx * SLICE_W + (st.m (yy * s_w + sx)).x0 ≤ xx ∧
          xx < sx * SLICE_W + (st.m (yy * s_w + sx)).x1)) →
      (clear_rgba_overlay H s_w st).px yy xx = st.px yy xx) := by
  obtain ⟨cm, cp, ca⟩ := clearAll_char s_w hsw H 0 st
  refine ⟨fun y sx hy hsx => ?_, rfl, fun y xx hy hxx => ?_, fun yy xx hnone => ?_⟩
  · show (loopN (fun y acc => loopN (clearSliceStep s_w y) 0 s_w acc) 0 H st).m
      (y * s_w + sx) = ⟨SLICE_W, 0⟩
    have hdv : (y * s_w + sx) / s_w = y := row_decomp_div hsw hsx y
    rcases hempty (y * s_w + sx) with hne | ⟨h0, h1⟩
    · rw [cm, if_pos ⟨Nat.zero_le _, by omega, hne⟩]
    · rw [cm, if_neg (by
        intro hc
        rw [SLICE_W_eq] at h0
        omega)]
      exact Slice.ext (by rw [h0]) (by rw [h1])
  · show (loopN (fun y acc => loopN (clearSliceStep s_w y) 0 s_w acc) 0 H st).px y xx = 0
    rw [cp]
    by_cases hcb : coveredSpan st.m s_w y 0 s_w xx = true
    · rw [if_pos ⟨Nat.zero_le _, by omega, hcb⟩]
    · rw [if_neg (fun hc => hcb hc.2.2)]
      by_contra hnz
      obtain ⟨sx, h1, h2⟩ := hcov y xx hy hxx hnz
      exact hcb ((coveredSpan_iff st.m s_w y 0 s_w xx).mpr ⟨sx, Nat.zero_le _, by omega, h2⟩)
  · show (loopN (fun y acc => loopN (clearSliceStep s_w y) 0 s_w acc) 0 H st).px yy xx =
      st.px yy xx
    rw [cp]
    rw [if_neg (by
      intro hc
      obtain ⟨sx, _, hlt, hstuff⟩ := (coveredSpan_iff st.m s_w yy 0 s_w xx).mp hc.2.2
      exact hnone sx (by omega) hstuff)]

theorem c8_clear_rgba_overlay_witness :
    (clear_rgba_overlay 1 1 ⟨emptySliceMap, fun _ _ => 0, true⟩).m 0 = ⟨SLICE_W, 0⟩ ∧
    (clear_rgba_overlay 1 1 ⟨emptySliceMap, fun _ _ => 0, true⟩).anyOsd = false ∧
    (clear_rgba_overlay 1 1 ⟨emptySliceMap, fun _ _ => 0, true⟩).px 0 5 = 0 :=
  have h := c8_clear_rgba_overlay 1 1 (by decide) ⟨emptySliceMap, fun _ _ => 0, true⟩
    (fun _ => Or.inr ⟨rfl, rfl⟩) (fun _ _ _ _ hnz => absurd rfl hnz)
  ⟨h.1 0 0 (by decide) (by decide), h.2.1, h.2.2.1 0 5 (by decide) (by decide)⟩

/-! ### The entry point mp_draw_sub_bitmaps (draw_bmp.c lines 731-793)

The orchestration is embedded over an abstract cache.  Collaborators that
draw_bmp.c treats as black boxes (the repack/scaler library, premultiply
conversions) are modelled as oracle success flags plus deterministic effect
functions in DrawCfg; overlay pixel contents (which do not influence control
flow) are abstracted away, while the slice map and any_osd - which do gate
the blend and the premultiply bracket - are modelled exactly, reusing
mark_rect and clear_rgba_overlay above. -/

inductive SubFmt where
  | libass
  | rgba
  | other
deriving DecidableEq, Repr

/-- One sub_bitmap: position, source size, destination size (all int in C). -/
structure SubPart where
  x : Int
  y : Int
  w : Int
  h : Int
  dw : Int
  dh : Int
deriving DecidableEq, Repr

/-- One sub_bitmaps item; scaleOk abstracts the success of the allocation and
scaling collaborators used by render_rgba for parts that need work. -/
structure SubItem where
  fmt : SubFmt
  parts : List SubPart
  scaleOk : Bool

/-- sub_bitmap_list. -/
structure SubList where
  changeId : Int
  items : List SubItem

/-- A destination image: abstract parameters, height, pixels. -/
structure Img where
  params : Nat
  h : Nat
  px : Nat → Nat → Nat

/-- The fields of mp_draw_sub_cache the entry point dispatches on. -/
structure Cache where
  initialized : Bool
  params : Nat
  changeId : Int
  slices : SliceMap
  anyOsd : Bool
  hasPremul : Bool

/-- The zeroed cache state *p = (struct mp_draw_sub_cache){0}. -/
def zeroCache : Cache :=
  { initialized := false, params := 0, changeId := 0,
    slices := fun _ => ⟨0, 0⟩, anyOsd := false, hasPremul := false }

/-- Black-box collaborators and reinit-derived geometry, as functions of the
target parameters. -/
structure DrawCfg where
  reinitOk : Bool
  convertOk : Bool
  premulOk : Bool
  blendOk : Bool
  unpremulOk : Bool
  s_w : Nat → Nat
  hOv : Nat → Nat
  alignX : Nat → Nat
  alignY : Nat → Nat
  W : Nat → Nat
  H : Nat → Nat
  needsPremul : Nat → Bool
  blendWrite : Nat → Nat → Nat → (Nat → Nat → Nat) → Nat → Nat → Nat
  premulFn : (Nat → Nat → Nat) → Nat → Nat → Nat
  unpremulFn : (Nat → Nat → Nat) → Nat → Nat → Nat

/-- A successful reinit: fresh state with the new params, empty slice map
(reinit ends in clear_rgba_overlay), any_osd false, change_id zeroed. -/
def reinitCache (cfg : DrawCfg) (params : Nat) : Cache :=
  { initialized := true, params := params, changeId := 0,
    slices := emptySliceMap, anyOsd := false,
    hasPremul := cfg.needsPremul params }

/-- The slice and any_osd effect of clear_rgba_overlay on the cache; params
is the cache's (unchanged) parameter key, passed explicitly. -/
def clearCacheSlices (cfg : DrawCfg) (params : Nat) (c : Cache) : Cache :=
  let r := clear_rgba_overlay (cfg.hOv params) (cfg.s_w params)
    ⟨c.slices, fun _ _ => 0, c.anyOsd⟩
  { c with slices := r.m, anyOsd := r.anyOsd }

/-- MPCLAMP. -/
def clampI (v lo hi : Int) : Int := max lo (min v hi)

/-- render_rgba: per part, clip the destination rectangle to [0,W] x [0,H],
skip empty clips, otherwise possibly scale (which may fail) and mark the
clipped rectangle; overlay stores are abstracted, slice marking is exact. -/
def renderRgba (s_w ax ay : Nat) (W H : Int) (scaleOk : Bool)
    (parts : List SubPart) (st : MarkState) : MarkState × Bool :=
  parts.foldl (fun acc pt =>
    if acc.2 = false then acc
    else
      let x0 := clampI pt.x 0 W
      let y0 := clampI pt.y 0 H
      let x1 := clampI (pt.x + pt.dw) 0 W
      let y1 := clampI (pt.y + pt.dh) 0 H
      if x1 - x0 ≤ 0 ∨ y1 - y0 ≤ 0 then acc
      else if scaleOk = false then (acc.1, false)
      else (mark_rect s_w ax ay acc.1 x0.toNat y0.toNat x1.toNat y1.toNat, true))
    (st, true)

/-- render_ass: draw each part (abstracted) and mark its rectangle. -/
def renderAss (s_w ax ay : Nat) (parts : List SubPart) (st : MarkState) : MarkState :=
  parts.foldl (fun acc pt =>
    mark_rect s_w ax ay acc pt.x.toNat pt.y.toNat
      (pt.x + pt.w).toNat (pt.y + pt.h).toNat) st

/-- render_sb: dispatch on the bitmap format; unsupported formats fail. -/
def render_sb (cfg : DrawCfg) (params : Nat) (it : SubItem) (st : MarkState) :
    MarkState × Bool :=
  match it.fmt with
  | SubFmt.libass =>
    (renderAss (cfg.s_w params) (cfg.alignX params) (cfg.alignY params) it.parts st, true)
  | SubFmt.rgba =>
    renderRgba (cfg.s_w params) (cfg.alignX params) (cfg.alignY params)
      (Int.ofNat (cfg.W params)) (Int.ofNat (cfg.H params)) it.scaleOk it.parts st
  | SubFmt.other => (st, false)

/-- The item loop of the change_id block: stop at the first failing item. -/
def renderAll (cfg : DrawCfg) (params : Nat) (items : List SubItem) (st : MarkState) :
    MarkState × Bool :=
  items.foldl (fun acc it => if acc.2 = false then acc else render_sb cfg params it acc.1)
    (st, true)

/-- blend_overlay_with_video's loop structure: for each row band y = k*align_y
below dst->h and each slice column, process slices of positive width through
the repack-and-blend collaborator. -/
def blendLoop (cfg : DrawCfg) (params : Nat) (m : SliceMap) (H : Nat)
    (px : Nat → Nat → Nat) : Nat → Nat → Nat :=
  loopN (fun k px =>
    loopN (fun sx px =>
      if (m (k * cfg.alignY params * cfg.s_w params + sx)).x0 <
          (m (k * cfg.alignY params * cfg.s_w params + sx)).x1 then
        cfg.blendWrite
          (sx * SLICE_W + (m (k * cfg.alignY params * cfg.s_w params + sx)).x0)
          (k * cfg.alignY params)
          ((m (k * cfg.alignY params * cfg.s_w params + sx)).x1 -
            (m (k * cfg.alignY params * cfg.s_w params + sx)).x0)
          px
      else px) 0 (cfg.s_w params) px)
    0 ((H + cfg.alignY params - 1) / cfg.alignY params) px

/-- The change_id block of mp_draw_sub_bitmaps.  Returns the cache, the
success flag, and the two instrumentation flags (clear/render entered,
convert_to_video_overlay entered). -/
def phase2 (cfg : DrawCfg) (c : Cache) (l : SubList) : Cache × Bool × Bool × Bool :=
  if c.changeId = l.changeId then (c, true, false, false)
  else
    let c1 : Cache := { c with changeId := l.changeId }
    let c2 := clearCacheSlices cfg c.params c1
    let r := renderAll cfg c.params l.items ⟨c2.slices, c2.anyOsd⟩
    let c3 : Cache := { c2 with slices := r.1.m, anyOsd := r.1.anyOsd }
    if r.2 = false then (c3, false, true, false)
    else if cfg.convertOk = false then (c3, false, true, true)
    else (c3, true, true, true)

structure DrawResult where
  cache : Cache
  px : Nat → Nat → Nat
  ok : Bool
  rasterized : Bool
  converted : Bool

/-- The rest of mp_draw_sub_bitmaps after a (possibly skipped) reinit: the
change_id block, the premultiply bracket, the blend, the unpremultiply. -/
def drawRest (cfg : DrawCfg) (c : Cache) (dst : Img) (l : SubList) : DrawResult :=
  let p2 := phase2 cfg c l
  let c2 := p2.1
  if p2.2.1 = false then ⟨c2, dst.px, false, p2.2.2.1, p2.2.2.2⟩
  else if c2.anyOsd && c2.hasPremul then
    if cfg.premulOk = false then ⟨c2, dst.px, false, p2.2.2.1, p2.2.2.2⟩
    else if cfg.blendOk = false then ⟨c2, dst.px, false, p2.2.2.1, p2.2.2.2⟩
    else if cfg.unpremulOk = false then ⟨c2, dst.px, false, p2.2.2.1, p2.2.2.2⟩
    else ⟨c2, cfg.unpremulFn
        (blendLoop cfg c.params c2.slices dst.h (cfg.premulFn dst.px)),
      true, p2.2.2.1, p2.2.2.2⟩
  else if cfg.blendOk = false then ⟨c2, dst.px, false, p2.2.2.1, p2.2.2.2⟩
  else ⟨c2, blendLoop cfg c.params c2.slices dst.h dst.px, true, p2.2.2.1, p2.2.2.2⟩

/-- mp_draw_sub_bitmaps: reinit when the params changed or the cache is
uninitialized (on reinit failure free the children, zero the cache and fail),
then run the pipeline.  The returned cache models *p_cache, which the C code
stores back unconditionally. -/
def mp_draw_sub_bitmaps (cfg : DrawCfg) (c : Cache) (dst : Img) (l : SubList) :
    DrawResult :=
  if c.params ≠ dst.params ∨ c.initialized = false then
    if cfg.reinitOk = false then
      { cache := zeroCache, px := dst.px, ok := false,
        rasterized := false, converted := false }
    else drawRest cfg (reinitCache cfg dst.params) dst l
  else drawRest cfg c dst l

theorem blendLoop_skip (cfg : DrawCfg) (params : Nat) (m : SliceMap) (H : Nat)
    (px : Nat → Nat → Nat)
    (hemp : ∀ k sx, k < (H + cfg.alignY params - 1) / cfg.alignY params →
      sx < cfg.s_w params →
      ¬((m (k * cfg.alignY params * cfg.s_w params + sx)).x0 <
        (m (k * cfg.alignY params * cfg.s_w params + sx)).x1)) :
    blendLoop cfg params m H px = px := by
  have hrow : ∀ (k : Nat), k < (H + cfg.alignY params - 1) / cfg.alignY params →
      ∀ (n start : Nat) (px : Nat → Nat → Nat), start + n ≤ cfg.s_w params →
      loopN (fun sx px =>
        if (m (k * cfg.alignY params * cfg.s_w params + sx)).x0 <
            (m (k * cfg.alignY params * cfg.s_w params + sx)).x1 then
          cfg.blendWrite
            (sx * SLICE_W + (m (k * cfg.alignY params * cfg.s_w params + sx)).x0)
            (k * cfg.alignY params)
            ((m (k * cfg.alignY params * cfg.s_w params + sx)).x1 -
              (m (k * cfg.alignY params * cfg.s_w params + sx)).x0)
            px
        else px) start n px = px := by
    intro k hk n
    induction n with
    | zero => intro start px _; rfl
    | succ n ih =>
      intro start px hle
      rw [loopN_succ]
      have hb : (if (m (k * cfg.alignY params * cfg.s_w params + start)).x0 <
            (m (k * cfg.alignY params * cfg.s_w params + start)).x1 then
          cfg.blendWrite
            (start * SLICE_W + (m (k * cfg.alignY params * cfg.s_w params + start)).x0)
            (k * cfg.alignY params)
            ((m (k * cfg.alignY params * cfg.s_w params + start)).x1 -
              (m (k * cfg.alignY params * cfg.s_w params + start)).x0)
            px
        else px) = px := if_neg (hemp k start hk (by omega))
      rw [hb]
      exact ih (start + 1) px (by omega)
  have houter : ∀ (n start : Nat) (px : Nat → Nat → Nat),
      start + n ≤ (H + cfg.alignY params - 1) / cfg.alignY params →
      loopN (fun k px =>
        loopN (fun sx px =>
          if (m (k * cfg.alignY params * cfg.s_w params + sx)).x0 <
              (m (k * cfg.alignY params * cfg.s_w params + sx)).x1 then
            cfg.blendWrite
              (sx * SLICE_W + (m (k * cfg.alignY params * cfg.s_w params + sx)).x0)
              (k * cfg.alignY params)
              ((m (k * cfg.alignY params * cfg.s_w params + sx)).x1 -
                (m (k * cfg.alignY params * cfg.s_w params + sx)).x0)
              px
          else px) 0 (cfg.s_w params) px) start n px = px := by
    intro n
    induction n with
    | zero => intro start px _; rfl
    | succ n ih =>
      intro start px hle
      rw [loopN_succ, hrow start (by omega) (cfg.s_w params) 0 px (by omega)]
      exact ih (start + 1) px (by omega)
  exact houter _ 0 px (by omega)

theorem clearCacheSlices_props (cfg : DrawCfg) (params : Nat) (c : Cache)
    (hsw : 0 < cfg.s_w params) :
    (∀ j, j / cfg.s_w params < cfg.hOv params →
      ¬(((clearCacheSlices cfg params c).slices j).x0 <
        ((clearCacheSlices cfg params c).slices j).x1)) ∧
    (clearCacheSlices cfg params c).anyOsd = false := by
  obtain ⟨cm, _, _⟩ := clearAll_char (cfg.s_w params) hsw (cfg.hOv params) 0
    ⟨c.slices, fun _ _ => 0, c.anyOsd⟩
  constructor
  · intro j hj
    have hcs : (clearCacheSlices cfg params c).slices j =
        if 0 ≤ j / cfg.s_w params ∧ j / cfg.s_w params < 0 + cfg.hOv params ∧
            (c.slices j).x0 ≤ (c.slices j).x1
        then ⟨SLICE_W, 0⟩ else c.slices j := cm j
    rw [hcs]
    by_cases hg : (c.slices j).x0 ≤ (c.slices j).x1
    · rw [if_pos ⟨Nat.zero_le _, by omega, hg⟩]
      show ¬(SLICE_W < 0)
      omega
    · rw [if_neg (fun hc => hg hc.2.2)]
      omega
  · rfl

def partEmptyB (W H : Int) (pt : SubPart) : Bool :=
  decide (clampI (pt.x + pt.dw) 0 W - clampI pt.x 0 W ≤ 0 ∨
    clampI (pt.y + pt.dh) 0 H - clampI pt.y 0 H ≤ 0)

/-- All items are RGBA and all their parts clip to an empty destination
rectangle (in particular the empty item list). -/
def noEffectItems (cfg : DrawCfg) (params : Nat) (items : List SubItem) : Bool :=
  items.all (fun it => (it.fmt == SubFmt.rgba) &&
    it.parts.all (partEmptyB (Int.ofNat (cfg.W params)) (Int.ofNat (cfg.H params))))

theorem renderRgba_noop (s_w ax ay : Nat) (W H : Int) (scaleOk : Bool) :
    ∀ (parts : List SubPart) (st : MarkState),
      parts.all (partEmptyB W H) = true →
      renderRgba s_w ax ay W H scaleOk parts st = (st, true) := by
  intro parts
  induction parts with
  | nil => intro st _; rfl
  | cons p ps ih =>
    intro st hall
    simp only [List.all_cons, Bool.and_eq_true] at hall
    have h1 : clampI (p.x + p.dw) 0 W - clampI p.x 0 W ≤ 0 ∨
        clampI (p.y + p.dh) 0 H - clampI p.y 0 H ≤ 0 :=
      of_decide_eq_true hall.1
    have hstep : renderRgba s_w ax ay W H scaleOk (p :: ps) st =
        renderRgba s_w ax ay W H scaleOk ps st := by
      simp only [renderRgba, List.foldl_cons]
      rw [if_neg (by simp), if_pos h1]
    rw [hstep]
    exact ih st hall.2

theorem renderAll_noop (cfg : DrawCfg) (params : Nat) :
    ∀ (items : List SubItem) (st : MarkState),
      noEffectItems cfg params items = true →
      renderAll cfg params items st = (st, true) := by
  intro items
  induction items with
  | nil => intro st _; rfl
  | cons it its ih =>
    intro st hall
    simp only [noEffectItems, List.all_cons, Bool.and_eq_true, beq_iff_eq] at hall
    have hfmt : it.fmt = SubFmt.rgba := hall.1.1
    have hstep : renderAll cfg params (it :: its) st = renderAll cfg params its st := by
      simp only [renderAll, List.foldl_cons]
      rw [if_neg (by simp)]
      have hsb : render_sb cfg params it st = (st, true) := by
        rw [render_sb, hfmt]
        exact renderRgba_noop _ _ _ _ _ _ it.parts st hall.1.2
      rw [hsb]
    rw [hstep]
    exact ih st (by simp only [noEffectItems]; exact hall.2)

theorem drawRest_identity (cfg : DrawCfg) (c1 : Cache) (dst : Img) (l : SubList)
    (hparams : c1.params = dst.params)
    (hcv : cfg.convertOk = true) (hbl : cfg.blendOk = true)
    (hay : 0 < cfg.alignY dst.params) (hov : dst.h ≤ cfg.hOv dst.params)
    (hsw : 0 < cfg.s_w dst.params)
    (hnoeff : noEffectItems cfg dst.params l.items = true)
    (hconsist : c1.changeId = l.changeId →
      (∀ y sx, sx < cfg.s_w dst.params →
        ¬((c1.slices (y * cfg.s_w dst.params + sx)).x0 <
          (c1.slices (y * cfg.s_w dst.params + sx)).x1)) ∧ c1.anyOsd = false) :
    (drawRest cfg c1 dst l).ok = true ∧ (drawRest cfg c1 dst l).px = dst.px := by
  rw [← hparams] at hay hov hsw hnoeff hconsist
  have hkrow : ∀ k, k < (dst.h + cfg.alignY c1.params - 1) / cfg.alignY c1.params →
      k * cfg.alignY c1.params < dst.h := by
    intro k hk
    have h1 : (k + 1) * cfg.alignY c1.params ≤
        ((dst.h + cfg.alignY c1.params - 1) / cfg.alignY c1.params) *
          cfg.alignY c1.params :=
      Nat.mul_le_mul_right _ (by omega)
    have h2 : ((dst.h + cfg.alignY c1.params - 1) / cfg.alignY c1.params) *
        cfg.alignY c1.params ≤ dst.h + cfg.alignY c1.params - 1 :=
      Nat.div_mul_le_self _ _
    have h3 : (k + 1) * cfg.alignY c1.params =
        k * cfg.alignY c1.params + cfg.alignY c1.params := by ring
    omega
  by_cases hch : c1.changeId = l.changeId
  · obtain ⟨hempt, hosd⟩ := hconsist hch
    have hp2 : phase2 cfg c1 l = (c1, true, false, false) := by
      simp only [phase2, if_pos hch]
    have hblend : blendLoop cfg c1.params c1.slices dst.h dst.px = dst.px := by
      apply blendLoop_skip
      intro k sx _ hsx
      exact hempt (k * cfg.alignY c1.params) sx hsx
    constructor
    · simp [drawRest, hp2, hosd, hbl]
    · simp [drawRest, hp2, hosd, hbl, hblend]
  · obtain ⟨hempts, hosd⟩ :=
      clearCacheSlices_props cfg c1.params { c1 with changeId := l.changeId } hsw
    have hren := renderAll_noop cfg c1.params l.items
      ⟨(clearCacheSlices cfg c1.params { c1 with changeId := l.changeId }).slices,
       (clearCacheSlices cfg c1.params { c1 with changeId := l.changeId }).anyOsd⟩ hnoeff
    have hp2 : phase2 cfg c1 l =
        (clearCacheSlices cfg c1.params { c1 with changeId := l.changeId },
          true, true, true) := by
      simp only [phase2, if_neg hch]
      rw [hren]
      rw [if_neg (by simp), if_neg (by simp [hcv])]
    have hblend : blendLoop cfg c1.params
        (clearCacheSlices cfg c1.params { c1 with changeId := l.changeId }).slices
        dst.h dst.px = dst.px := by
      apply blendLoop_skip
      intro k sx hk hsx
      apply hempts
      have hdv : (k * cfg.alignY c1.params * cfg.s_w c1.params + sx) /
          cfg.s_w c1.params = k * cfg.alignY c1.params :=
        row_decomp_div hsw hsx _
      rw [hdv]
      exact lt_of_lt_of_le (hkrow k hk) hov
    constructor
    · simp [drawRest, hp2, hosd, hbl]
    · simp [drawRest, hp2, hosd, hbl, hblend]

/-- C2: for every destination image and every bitmap list whose items
contain no part with a non-empty clipped destination rectangle (in
particular an empty list), a successful call to mp_draw_sub_bitmaps leaves
every destination pixel bit-exactly unchanged.  The collaborator oracles are
assumed to succeed (the claim speaks of a successful call), and a warm cache
that skips rasterization is assumed consistent (empty slice map, any_osd
false), which the pipeline maintains. -/
theorem c2_empty_list_identity (cfg : DrawCfg) (c : Cache) (dst : Img) (l : SubList)
    (hre : cfg.reinitOk = true) (hcv : cfg.convertOk = true) (hbl : cfg.blendOk = true)
    (hay : 0 < cfg.alignY dst.params) (hov : dst.h ≤ cfg.hOv dst.params)
    (hsw : 0 < cfg.s_w dst.params)
    (hnoeff : noEffectItems cfg dst.params l.items = true)
    (hwarm : c.params = dst.params → c.initialized = true → c.changeId = l.changeId →
      (∀ y sx, sx < cfg.s_w dst.params →
        ¬((c.slices (y * cfg.s_w dst.params + sx)).x0 <
          (c.slices (y * cfg.s_w dst.params + sx)).x1)) ∧ c.anyOsd = false) :
    (mp_draw_sub_bitmaps cfg c dst l).ok = true ∧
    (∀ yy xx, (mp_draw_sub_bitmaps cfg c dst l).px yy xx = dst.px yy xx) := by
  by_cases hneed : c.params ≠ dst.params ∨ c.initialized = false
  · have hmp : mp_draw_sub_bitmaps cfg c dst l =
        drawRest cfg (reinitCache cfg dst.params) dst l := by
      simp only [mp_draw_sub_bitmaps, if_pos hneed]
      rw [if_neg (by simp [hre])]
    have hcons : (reinitCache cfg dst.params).changeId = l.changeId →
        (∀ y sx, sx < cfg.s_w dst.params →
          ¬(((reinitCache cfg dst.params).slices (y * cfg.s_w dst.params + sx)).x0 <
            ((reinitCache cfg dst.params).slices (y * cfg.s_w dst.params + sx)).x1)) ∧
        (reinitCache cfg dst.params).anyOsd = false := by
      intro _
      refine ⟨fun y sx _ => ?_, rfl⟩
      show ¬(SLICE_W < 0)
      omega
    obtain ⟨hok, hpx⟩ := drawRest_identity cfg (reinitCache cfg dst.params) dst l rfl
      hcv hbl hay hov hsw hnoeff hcons
    rw [hmp]
    exact ⟨hok, fun yy xx => by rw [hpx]⟩
  · have hpe : c.params = dst.params := by
      by_contra hne
      exact hneed (Or.inl hne)
    have hin : c.initialized = true := by
      cases hcl : c.initialized
      · exact absurd (Or.inr hcl) hneed
      · rfl
    have hmp : mp_draw_sub_bitmaps cfg c dst l = drawRest cfg c dst l := by
      simp only [mp_draw_sub_bitmaps, if_neg hneed]
    obtain ⟨hok, hpx⟩ := drawRest_identity cfg c dst l hpe hcv hbl hay hov hsw hnoeff
      (hwarm hpe hin)
    rw [hmp]
    exact ⟨hok, fun yy xx => by rw [hpx]⟩

/-- A concrete oracle configuration for exercising the entry point. -/
def testCfg : DrawCfg :=
  { reinitOk := true, convertOk := true, premulOk := true, blendOk := true,
    unpremulOk := true,
    s_w := fun _ => 1, hOv := fun _ => 4, alignX := fun _ => 1, alignY := fun _ => 1,
    W := fun _ => 4, H := fun _ => 4, needsPremul := fun _ => false,
    blendWrite := fun _ _ _ px _ _ => px 0 0 + 1,
    premulFn := fun px => px, unpremulFn := fun px => px }

theorem c2_empty_list_identity_witness :
    (mp_draw_sub_bitmaps testCfg zeroCache ⟨7, 4, fun _ _ => 3⟩ ⟨5, []⟩).ok = true ∧
    (mp_draw_sub_bitmaps testCfg zeroCache ⟨7, 4, fun _ _ => 3⟩ ⟨5, []⟩).px 1 2 = 3 :=
  have h := c2_empty_list_identity testCfg zeroCache ⟨7, 4, fun _ _ => 3⟩ ⟨5, []⟩
    rfl rfl rfl (by decide) (by decide) (by decide) (by decide)
    (fun hp _ _ => absurd hp (by decide))
  ⟨h.1, h.2 1 2⟩

theorem phase2_fields (cfg : DrawCfg) (c : Cache) (l : SubList) :
    (phase2 cfg c l).1.params = c.params ∧
    (phase2 cfg c l).1.initialized = c.initialized ∧
    ((phase2 cfg c l).2.1 = true → (phase2 cfg c l).1.changeId = l.changeId) := by
  by_cases hch : c.changeId = l.changeId
  · simp [phase2, hch]
  · simp only [phase2, if_neg hch]
    split_ifs <;> exact ⟨rfl, rfl, fun _ => rfl⟩

theorem drawRest_cache (cfg : DrawCfg) (c : Cache) (dst : Img) (l : SubList) :
    (drawRest cfg c dst l).cache = (phase2 cfg c l).1 := by
  simp only [drawRest]
  split_ifs <;> rfl

theorem drawRest_ok_phase2 (cfg : DrawCfg) (c : Cache) (dst : Img) (l : SubList)
    (hok : (drawRest cfg c dst l).ok = true) : (phase2 cfg c l).2.1 = true := by
  by_contra hb
  have hb' : (phase2 cfg c l).2.1 = false := by
    cases hx : (phase2 cfg c l).2.1
    · rfl
    · exact absurd hx hb
  simp only [drawRest] at hok
  rw [if_pos hb'] at hok
  exact absurd hok (by simp)

theorem drawRest_second (cfg : DrawCfg) (c1 : Cache) (dst : Img) (l : SubList)
    (hok : (drawRest cfg c1 dst l).ok = true) :
    drawRest cfg (phase2 cfg c1 l).1 dst l =
      { cache := (phase2 cfg c1 l).1, px := (drawRest cfg c1 dst l).px,
        ok := true, rasterized := false, converted := false } := by
  have hphase := drawRest_ok_phase2 cfg c1 dst l hok
  have hchg : (phase2 cfg c1 l).1.changeId = l.changeId :=
    (phase2_fields cfg c1 l).2.2 hphase
  have hp2b : phase2 cfg (phase2 cfg c1 l).1 l =
      ((phase2 cfg c1 l).1, true, false, false) := by
    revert hchg
    generalize (phase2 cfg c1 l).1 = X
    intro hchg
    unfold phase2
    rw [if_pos hchg]
  cases hpm : ((phase2 cfg c1 l).1.anyOsd && (phase2 cfg c1 l).1.hasPremul) with
  | false =>
    cases hbl : cfg.blendOk with
    | false =>
      exfalso
      simp only [drawRest] at hok
      rw [if_neg (by simp [hphase]), if_neg (by simp [hpm]), if_pos hbl] at hok
      simp at hok
    | true =>
      have hpx1 : (drawRest cfg c1 dst l).px =
          blendLoop cfg c1.params (phase2 cfg c1 l).1.slices dst.h dst.px := by
        simp only [drawRest]
        rw [if_neg (by simp [hphase]), if_neg (by simp [hpm]), if_neg (by simp [hbl])]
      rw [hpx1]
      simp only [drawRest, hp2b]
      rw [if_neg (by simp), if_neg (by simp [hpm]), if_neg (by simp [hbl])]
      rw [(phase2_fields cfg c1 l).1]
  | true =>
    cases hpr : cfg.premulOk with
    | false =>
      exfalso
      simp only [drawRest] at hok
      rw [if_neg (by simp [hphase]), if_pos hpm, if_pos hpr] at hok
      simp at hok
    | true =>
      cases hbl : cfg.blendOk with
      | false =>
        exfalso
        simp only [drawRest] at hok
        rw [if_neg (by simp [hphase]), if_pos hpm, if_neg (by simp [hpr]),
          if_pos hbl] at hok
        simp at hok
      | true =>
        cases hup : cfg.unpremulOk with
        | false =>
          exfalso
          simp only [drawRest] at hok
          rw [if_neg (by simp [hphase]), if_pos hpm, if_neg (by simp [hpr]),
            if_neg (by simp [hbl]), if_pos hup] at hok
          simp at hok
        | true =>
          have hpx1 : (drawRest cfg c1 dst l).px =
              cfg.unpremulFn (blendLoop cfg c1.params (phase2 cfg c1 l).1.slices
                dst.h (cfg.premulFn dst.px)) := by
            simp only [drawRest]
            rw [if_neg (by simp [hphase]), if_pos hpm, if_neg (by simp [hpr]),
              if_neg (by simp [hbl]), if_neg (by simp [hup])]
          rw [hpx1]
          simp only [drawRest, hp2b]
          rw [if_neg (by simp), if_pos hpm, if_neg (by simp [hpr]),
            if_neg (by simp [hbl]), if_neg (by simp [hup])]
          rw [(phase2_fields cfg c1 l).1]

theorem mp_draw_second_of_drawRest (cfg : DrawCfg) (c1 : Cache) (dst : Img)
    (l : SubList) (hp : c1.params = dst.params) (hi : c1.initialized = true)
    (hok : (drawRest cfg c1 dst l).ok = true) :
    mp_draw_sub_bitmaps cfg (drawRest cfg c1 dst l).cache dst l =
      { cache := (drawRest cfg c1 dst l).cache, px := (drawRest cfg c1 dst l).px,
        ok := true, rasterized := false, converted := false } := by
  have hc := drawRest_cache cfg c1 dst l
  have hfields := phase2_fields cfg c1 l
  have hnoneed : ¬((drawRest cfg c1 dst l).cache.params ≠ dst.params ∨
      (drawRest cfg c1 dst l).cache.initialized = false) := by
    rw [hc]
    intro h
    rcases h with h | h
    · exact h (by rw [hfields.1, hp])
    · rw [hfields.2.1, hi] at h
      exact absurd h (by simp)
  have hstep : mp_draw_sub_bitmaps cfg (drawRest cfg c1 dst l).cache dst l =
      drawRest cfg (drawRest cfg c1 dst l).cache dst l := by
    simp only [mp_draw_sub_bitmaps, if_neg hnoneed]
  rw [hstep, hc, drawRest_second cfg c1 dst l hok]

/-- C9: a second call with the same change id, the same target parameters
and the same initial destination contents yields exactly the same
destination, succeeds, and executes neither the rasterization phase
(clear_rgba_overlay / render_sb) nor the overlay conversion phase
(convert_to_video_overlay). -/
theorem c9_idempotent_redraw (cfg : DrawCfg) (c : Cache) (dst : Img) (l : SubList)
    (h1 : (mp_draw_sub_bitmaps cfg c dst l).ok = true) :
    (mp_draw_sub_bitmaps cfg (mp_draw_sub_bitmaps cfg c dst l).cache dst l).ok = true ∧
    (∀ yy xx,
      (mp_draw_sub_bitmaps cfg (mp_draw_sub_bitmaps cfg c dst l).cache dst l).px yy xx =
        (mp_draw_sub_bitmaps cfg c dst l).px yy xx) ∧
    (mp_draw_sub_bitmaps cfg
      (mp_draw_sub_bitmaps cfg c dst l).cache dst l).rasterized = false ∧
    (mp_draw_sub_bitmaps cfg
      (mp_draw_sub_bitmaps cfg c dst l).cache dst l).converted = false := by
  by_cases hneed : c.params ≠ dst.params ∨ c.initialized = false
  · cases hro : cfg.reinitOk with
    | false =>
      exfalso
      simp only [mp_draw_sub_bitmaps, if_pos hneed, if_pos hro] at h1
      simp at h1
    | true =>
      have hmp : mp_draw_sub_bitmaps cfg c dst l =
          drawRest cfg (reinitCache cfg dst.params) dst l := by
        simp only [mp_draw_sub_bitmaps, if_pos hneed]
        rw [if_neg (by simp [hro])]
      rw [hmp] at h1 ⊢
      rw [mp_draw_second_of_drawRest cfg (reinitCache cfg dst.params) dst l rfl rfl h1]
      exact ⟨rfl, fun yy xx => rfl, rfl, rfl⟩
  · have hpe : c.params = dst.params := by
      by_contra hne
      exact hneed (Or.inl hne)
    have hin : c.initialized = true := by
      cases hcl : c.initialized
      · exact absurd (Or.inr hcl) hneed
      · rfl
    have hmp : mp_draw_sub_bitmaps cfg c dst l = drawRest cfg c dst l := by
      simp only [mp_draw_sub_bitmaps, if_neg hneed]
    rw [hmp] at h1 ⊢
    rw [mp_draw_second_of_drawRest cfg c dst l hpe hin h1]
    exact ⟨rfl, fun yy xx => rfl, rfl, rfl⟩

theorem c9_idempotent_redraw_witness :
    (mp_draw_sub_bitmaps testCfg
      (mp_draw_sub_bitmaps testCfg zeroCache ⟨7, 4, fun _ _ => 3⟩ ⟨0, []⟩).cache
      ⟨7, 4, fun _ _ => 3⟩ ⟨0, []⟩).rasterized = false ∧
    (mp_draw_sub_bitmaps testCfg
      (mp_draw_sub_bitmaps testCfg zeroCache ⟨7, 4, fun _ _ => 3⟩ ⟨0, []⟩).cache
      ⟨7, 4, fun _ _ => 3⟩ ⟨0, []⟩).converted = false ∧
    (mp_draw_sub_bitmaps testCfg
      (mp_draw_sub_bitmaps testCfg zeroCache ⟨7, 4, fun _ _ => 3⟩ ⟨0, []⟩).cache
      ⟨7, 4, fun _ _ => 3⟩ ⟨0, []⟩).px 0 0 =
      (mp_draw_sub_bitmaps testCfg zeroCache ⟨7, 4, fun _ _ => 3⟩ ⟨0, []⟩).px 0 0 :=
  have h := c9_idempotent_redraw testCfg zeroCache ⟨7, 4, fun _ _ => 3⟩ ⟨0, []⟩ rfl
  ⟨h.2.2.1, h.2.2.2, h.2.1 0 0⟩

/-- Whether render_sb succeeds on an item: LIBASS always, RGBA when the
scaler succeeds or no part needs work, other formats never. -/
def itemOkB (cfg : DrawCfg) (params : Nat) (it : SubItem) : Bool :=
  match it.fmt with
  | SubFmt.libass => true
  | SubFmt.rgba => it.scaleOk ||
      it.parts.all (partEmptyB (Int.ofNat (cfg.W params)) (Int.ofNat (cfg.H params)))
  | SubFmt.other => false

theorem foldl_stop {α β : Type} (g : (α × Bool) → β → α × Bool)
    (hg : ∀ acc b, acc.2 = false → g acc b = acc) :
    ∀ (bs : List β) (m : α), bs.foldl g (m, false) = (m, false) := by
  intro bs
  induction bs with
  | nil => intro m; rfl
  | cons b bs ih =>
    intro m
    rw [List.foldl_cons, hg (m, false) b rfl]
    exact ih m

theorem foldl_stop2 {α β : Type} (g : α × Bool → β → α × Bool) :
    ∀ (bs : List β) (m : α),
      bs.foldl (fun acc b => if acc.2 = false then acc else g acc b) (m, false) =
        (m, false) := by
  intro bs
  induction bs with
  | nil => intro m; rfl
  | cons b bs ih =>
    intro m
    rw [List.foldl_cons, if_pos rfl]
    exact ih m

theorem renderRgba_ok (s_w ax ay : Nat) (W H : Int) (scaleOk : Bool) :
    ∀ (parts : List SubPart) (st : MarkState),
      (renderRgba s_w ax ay W H scaleOk parts st).2 =
        (scaleOk || parts.all (partEmptyB W H)) := by
  intro parts
  induction parts with
  | nil => intro st; simp [renderRgba]
  | cons p ps ih =>
    intro st
    cases hp : partEmptyB W H p with
    | true =>
      have h1 : clampI (p.x + p.dw) 0 W - clampI p.x 0 W ≤ 0 ∨
          clampI (p.y + p.dh) 0 H - clampI p.y 0 H ≤ 0 := of_decide_eq_true hp
      have hstep : renderRgba s_w ax ay W H scaleOk (p :: ps) st =
          renderRgba s_w ax ay W H scaleOk ps st := by
        simp only [renderRgba, List.foldl_cons]
        rw [if_neg (by simp), if_pos h1]
      rw [hstep, ih st]
      simp [List.all_cons, hp]
    | false =>
      have h1 : ¬(clampI (p.x + p.dw) 0 W - clampI p.x 0 W ≤ 0 ∨
          clampI (p.y + p.dh) 0 H - clampI p.y 0 H ≤ 0) := of_decide_eq_false hp
      cases hs : scaleOk with
      | false =>
        simp only [renderRgba, List.foldl_cons]
        rw [if_neg (by simp), if_neg h1, if_pos trivial]
        rw [foldl_stop2]
        simp [List.all_cons, hp]
      | true =>
        have hstep : renderRgba s_w ax ay W H true (p :: ps) st =
            renderRgba s_w ax ay W H true ps
              (mark_rect s_w ax ay st (clampI p.x 0 W).toNat (clampI p.y 0 H).toNat
                (clampI (p.x + p.dw) 0 W).toNat (clampI (p.y + p.dh) 0 H).toNat) := by
          simp only [renderRgba, List.foldl_cons]
          rw [if_neg (by simp), if_neg h1, if_neg (by decide : ¬(true = false))]
        rw [hs] at ih
        rw [hstep, ih _]
        simp

theorem render_sb_ok (cfg : DrawCfg) (params : Nat) (it : SubItem) (st : MarkState) :
    (render_sb cfg params it st).2 = itemOkB cfg params it := by
  cases hf : it.fmt <;> simp [render_sb, itemOkB, hf, renderRgba_ok]

theorem renderAll_ok (cfg : DrawCfg) (params : Nat) :
    ∀ (items : List SubItem) (st : MarkState),
      (renderAll cfg params items st).2 = items.all (itemOkB cfg params) := by
  intro items
  induction items with
  | nil => intro st; simp [renderAll]
  | cons it its ih =>
    intro st
    have hok : itemOkB cfg params it = (render_sb cfg params it st).2 :=
      (render_sb_ok cfg params it st).symm
    cases hr : (render_sb cfg params it st).2 with
    | false =>
      simp only [renderAll, List.foldl_cons]
      rw [if_neg (by simp),
        show render_sb cfg params it st = ((render_sb cfg params it st).1, false) from
          by rw [← hr]]
      rw [foldl_stop2]
      simp [List.all_cons, hok, hr]
    | true =>
      simp only [renderAll, List.foldl_cons]
      rw [if_neg (by simp),
        show render_sb cfg params it st = ((render_sb cfg params it st).1, true) from
          by rw [← hr]]
      have hgoal := ih (render_sb cfg params it st).1
      simp only [renderAll] at hgoal
      rw [hgoal]
      simp [List.all_cons, hok, hr]

theorem mp_draw_noReinit (cfg : DrawCfg) (c : Cache) (dst : Img) (l : SubList)
    (hpe : c.params = dst.params) (hin : c.initialized = true) :
    mp_draw_sub_bitmaps cfg c dst l = drawRest cfg c dst l := by
  have hn : ¬(c.params ≠ dst.params ∨ c.initialized = false) := by
    intro h
    rcases h with h | h
    · exact h hpe
    · rw [hin] at h; exact absurd h (by decide)
  simp only [mp_draw_sub_bitmaps, if_neg hn]

theorem phase2_fail_items (cfg : DrawCfg) (c : Cache) (l : SubList)
    (hch : ¬(c.changeId = l.changeId))
    (hitems : l.items.all (itemOkB cfg c.params) = false) :
    (phase2 cfg c l).2.1 = false := by
  simp only [phase2, if_neg hch]
  rw [if_pos (by rw [renderAll_ok]; exact hitems)]

theorem phase2_fail_convert (cfg : DrawCfg) (c : Cache) (l : SubList)
    (hch : ¬(c.changeId = l.changeId))
    (hitems : l.items.all (itemOkB cfg c.params) = true)
    (hcv : cfg.convertOk = false) :
    (phase2 cfg c l).2.1 = false := by
  simp only [phase2, if_neg hch]
  rw [if_neg (by rw [renderAll_ok, hitems]; simp), if_pos hcv]

theorem phase2_warm (cfg : DrawCfg) (c : Cache) (l : SubList)
    (hch : c.changeId = l.changeId) :
    phase2 cfg c l = (c, true, false, false) := by
  unfold phase2
  rw [if_pos hch]

/-- C10: every internal failure propagates to mp_draw_sub_bitmaps as ok =
false with the destination untouched, and the cache object is still handed
back for retry: on reinit failure the returned cache is the zeroed
(uninitialized) state; on a rasterization/format failure or an overlay
conversion failure the cache stays initialized with its parameter key; on a
premultiply, blend or unpremultiply failure the cache is returned intact. -/
theorem c10_error_propagation (cfg : DrawCfg) (c : Cache) (dst : Img) (l : SubList) :
    ((c.params ≠ dst.params ∨ c.initialized = false) → cfg.reinitOk = false →
      (mp_draw_sub_bitmaps cfg c dst l).ok = false ∧
      (mp_draw_sub_bitmaps cfg c dst l).cache = zeroCache ∧
      (mp_draw_sub_bitmaps cfg c dst l).px = dst.px) ∧
    (c.params = dst.params → c.initialized = true →
      ¬(c.changeId = l.changeId) → l.items.all (itemOkB cfg c.params) = false →
      (mp_draw_sub_bitmaps cfg c dst l).ok = false ∧
      (mp_draw_sub_bitmaps cfg c dst l).px = dst.px ∧
      (mp_draw_sub_bitmaps cfg c dst l).cache.initialized = true ∧
      (mp_draw_sub_bitmaps cfg c dst l).cache.params = c.params) ∧
    (c.params = dst.params → c.initialized = true →
      ¬(c.changeId = l.changeId) → l.items.all (itemOkB cfg c.params) = true →
      cfg.convertOk = false →
      (mp_draw_sub_bitmaps cfg c dst l).ok = false ∧
      (mp_draw_sub_bitmaps cfg c dst l).px = dst.px ∧
      (mp_draw_sub_bitmaps cfg c dst l).cache.initialized = true ∧
      (mp_draw_sub_bitmaps cfg c dst l).cache.params = c.params) ∧
    (c.params = dst.params → c.initialized = true → c.changeId = l.changeId →
      (c.anyOsd && c.hasPremul) = true → cfg.premulOk = false →
      (mp_draw_sub_bitmaps cfg c dst l).ok = false ∧
      (mp_draw_sub_bitmaps cfg c dst l).px = dst.px ∧
      (mp_draw_sub_bitmaps cfg c dst l).cache = c) ∧
    (c.params = dst.params → c.initialized = true → c.changeId = l.changeId →
      (c.anyOsd && c.hasPremul) = false → cfg.blendOk = false →
      (mp_draw_sub_bitmaps cfg c dst l).ok = false ∧
      (mp_draw_sub_bitmaps cfg c dst l).px = dst.px ∧
      (mp_draw_sub_bitmaps cfg c dst l).cache = c) ∧
    (c.params = dst.params → c.initialized = true → c.changeId = l.changeId →
      (c.anyOsd && c.hasPremul) = true → cfg.premulOk = true → cfg.blendOk = true →
      cfg.unpremulOk = false →
      (mp_draw_sub_bitmaps cfg c dst l).ok = false ∧
      (mp_draw_sub_bitmaps cfg c dst l).px = dst.px ∧
      (mp_draw_sub_bitmaps cfg c dst l).cache = c) := by
  refine ⟨?_, ?_, ?_, ?_, ?_, ?_⟩
  · intro hneed hro
    simp [mp_draw_sub_bitmaps, if_pos hneed, if_pos hro]
  · intro hpe hin hch hitems
    rw [mp_draw_noReinit cfg c dst l hpe hin]
    have hp := phase2_fail_items cfg c l hch hitems
    have hd : drawRest cfg c dst l =
        ⟨(phase2 cfg c l).1, dst.px, false,
          (phase2 cfg c l).2.2.1, (phase2 cfg c l).2.2.2⟩ := by
      simp only [drawRest]
      rw [if_pos hp]
    rw [hd]
    refine ⟨rfl, rfl, ?_, (phase2_fields cfg c l).1⟩
    rw [(phase2_fields cfg c l).2.1, hin]
  · intro hpe hin hch hitems hcv
    rw [mp_draw_noReinit cfg c dst l hpe hin]
    have hp := phase2_fail_convert cfg c l hch hitems hcv
    have hd : drawRest cfg c dst l =
        ⟨(phase2 cfg c l).1, dst.px, false,
          (phase2 cfg c l).2.2.1, (phase2 cfg c l).2.2.2⟩ := by
      simp only [drawRest]
      rw [if_pos hp]
    rw [hd]
    refine ⟨rfl, rfl, ?_, (phase2_fields cfg c l).1⟩
    rw [(phase2_fields cfg c l).2.1, hin]
  · intro hpe hin hch hap hpm
    rw [mp_draw_noReinit cfg c dst l hpe hin]
    have hp2 := phase2_warm cfg c l hch
    simp only [drawRest, hp2]
    split_ifs <;> simp_all
  · intro hpe hin hch hap hbl
    rw [mp_draw_noReinit cfg c dst l hpe hin]
    have hp2 := phase2_warm cfg c l hch
    simp only [drawRest, hp2]
    split_ifs <;> simp_all
  · intro hpe hin hch hap hpm hbl hup
    rw [mp_draw_noReinit cfg c dst l hpe hin]
    have hp2 := phase2_warm cfg c l hch
    simp only [drawRest, hp2]
    split_ifs <;> simp_all

/-- A collaborator configuration whose reinit fails. -/
def testCfgReinitFail : DrawCfg := { testCfg with reinitOk := false }

theorem c10_error_propagation_witness :
    (mp_draw_sub_bitmaps testCfgReinitFail zeroCache ⟨7, 4, fun _ _ => 3⟩ ⟨5, []⟩).ok
        = false ∧
    (mp_draw_sub_bitmaps testCfgReinitFail zeroCache ⟨7, 4, fun _ _ => 3⟩ ⟨5, []⟩).cache
        = zeroCache ∧
    (mp_draw_sub_bitmaps testCfgReinitFail zeroCache ⟨7, 4, fun _ _ => 3⟩ ⟨5, []⟩).px 1 2
        = 3 :=
  have h := (c10_error_propagation testCfgReinitFail zeroCache ⟨7, 4, fun _ _ => 3⟩
    ⟨5, []⟩).1 (Or.inr rfl) rfl
  ⟨h.1, h.2.1, congrFun (congrFun h.2.2 1) 2⟩
